import Mathlib

set_option linter.unusedVariables false

/-!
Shallow embedding of `src/integrations/aws-serverless/install_standalone.py`:
the webhook resolver, the integration-config reconciler, and the
local-vs-live configuration diff engine, together with proofs of the
specification claims about them.

Python `dict`/`list`/JSON values are modelled by the `Json` inductive;
Python `None` is `Json.null`.  HTTP interactions are modelled by an
environment `env : Nat → Resp` giving the response to the n-th call of a
run, and each stateful function returns the list of requests it issued,
in order.  Python exceptions are modelled with `Except Err`.
-/

/-- A JSON / Python value as handled by the script. -/
inductive Json where
  | null : Json
  | bool : Bool → Json
  | num : Int → Json
  | str : String → Json
  | arr : List Json → Json
  | obj : List (String × Json) → Json

mutual

/-- Structural equality of `Json` values (Python `==` on JSON data). -/
def Json.beq : Json → Json → Bool
  | .null, .null => true
  | .bool a, .bool b => a == b
  | .num a, .num b => a == b
  | .str a, .str b => a == b
  | .arr a, .arr b => beqArr a b
  | .obj a, .obj b => beqObj a b
  | _, _ => false

def beqArr : List Json → List Json → Bool
  | [], [] => true
  | x :: xs, y :: ys => Json.beq x y && beqArr xs ys
  | _, _ => false

def beqObj : List (String × Json) → List (String × Json) → Bool
  | [], [] => true
  | (k, v) :: xs, (k', v') :: ys => k == k' && Json.beq v v' && beqObj xs ys
  | _, _ => false

end

mutual

theorem Json.beq_iff : ∀ a b : Json, Json.beq a b = true ↔ a = b
  | .null, .null => by simp [Json.beq]
  | .bool a, .bool b => by simp [Json.beq]
  | .num a, .num b => by simp [Json.beq]
  | .str a, .str b => by simp [Json.beq]
  | .arr a, .arr b => by simpa [Json.beq] using beqArr_iff a b
  | .obj a, .obj b => by simpa [Json.beq] using beqObj_iff a b
  | .null, .bool _ | .null, .num _ | .null, .str _ | .null, .arr _
  | .null, .obj _ | .bool _, .null | .bool _, .num _ | .bool _, .str _
  | .bool _, .arr _ | .bool _, .obj _ | .num _, .null | .num _, .bool _
  | .num _, .str _ | .num _, .arr _ | .num _, .obj _ | .str _, .null
  | .str _, .bool _ | .str _, .num _ | .str _, .arr _ | .str _, .obj _
  | .arr _, .null | .arr _, .bool _ | .arr _, .num _ | .arr _, .str _
  | .arr _, .obj _ | .obj _, .null | .obj _, .bool _ | .obj _, .num _
  | .obj _, .str _ | .obj _, .arr _ => by simp [Json.beq]

theorem beqArr_iff : ∀ a b : List Json, beqArr a b = true ↔ a = b
  | [], [] => by simp [beqArr]
  | x :: xs, y :: ys => by
      simp [beqArr, Json.beq_iff x y, beqArr_iff xs ys]
  | [], _ :: _ => by simp [beqArr]
  | _ :: _, [] => by simp [beqArr]

theorem beqObj_iff :
    ∀ a b : List (String × Json), beqObj a b = true ↔ a = b
  | [], [] => by simp [beqObj]
  | (k, v) :: xs, (k', v') :: ys => by
      simp [beqObj, Json.beq_iff v v', beqObj_iff xs ys, and_assoc]
  | [], _ :: _ => by simp [beqObj]
  | (_, _) :: _, [] => by simp [beqObj]

end

instance : DecidableEq Json := fun a b => decidable_of_iff _ (Json.beq_iff a b)

instance : BEq Json := ⟨fun a b => a.beq b⟩

instance : LawfulBEq Json where
  eq_of_beq h := (Json.beq_iff _ _).1 h
  rfl := (Json.beq_iff _ _).2 rfl

abbrev Err := String

/-- Python truthiness (`bool(x)`) for the values we model. -/
def Json.truthy : Json → Bool
  | .null => false
  | .bool b => b
  | .num n => n != 0
  | .str s => s != ""
  | .arr l => !l.isEmpty
  | .obj l => !l.isEmpty

def Json.isObj : Json → Bool
  | .obj _ => true
  | _ => false

def Json.isStr : Json → Bool
  | .str _ => true
  | _ => false

/-- First-match lookup in an association list (Python dict member access). -/
def lookupL (d : List (String × Json)) (k : String) : Option Json :=
  match d with
  | [] => none
  | (k', v) :: t => if k' = k then some v else lookupL t k

/-- `d.get(k, dflt)` on a Python dict. -/
def getDfltL (d : List (String × Json)) (k : String) (dflt : Json) : Json :=
  match lookupL d k with
  | some v => v
  | none => dflt

/-- `x.get(k, dflt)`: errors (AttributeError) when `x` is not a dict. -/
def pyGetDflt (x : Json) (k : String) (dflt : Json) : Except Err Json :=
  match x with
  | .obj d => .ok (getDfltL d k dflt)
  | _ => .error "AttributeError: get"

/-- `x.get(k)` (default `None`): errors when `x` is not a dict. -/
def pyGetNull (x : Json) (k : String) : Except Err Json :=
  pyGetDflt x k .null

/-- `k in d` for a Python dict / list / str; TypeError otherwise. -/
def pyContains (x : Json) (k : String) : Except Err Bool :=
  match x with
  | .obj d => .ok ((lookupL d k).isSome)
  | .arr l => .ok (l.contains (.str k))
  | .str s => .ok ((s.splitOn k).length > 1)
  | _ => .error "TypeError: argument of type is not iterable"

/-- `x[k]` subscript with a string key; dict lookup, TypeError otherwise. -/
def pySubscript (x : Json) (k : String) : Except Err Json :=
  match x with
  | .obj d =>
    match lookupL d k with
    | some v => .ok v
    | none => .error "KeyError"
  | _ => .error "TypeError: indices must be integers"

/-- `d[k] = v` on a Python dict: update in place, or append. -/
def setItemL (d : List (String × Json)) (k : String) (v : Json) :
    List (String × Json) :=
  if (lookupL d k).isSome then
    d.map (fun p => if p.1 = k then (k, v) else p)
  else
    d ++ [(k, v)]

/-- `d.pop(k, None)` on a Python dict: remove the key. -/
def popL (d : List (String × Json)) (k : String) : List (String × Json) :=
  d.filter (fun p => p.1 ≠ k)

/-- Remove duplicates, keeping the first occurrence of each element. -/
def dedupAux {α : Type} [DecidableEq α] (seen : List α) : List α → List α
  | [] => []
  | x :: xs =>
    if x ∈ seen then dedupAux seen xs else x :: dedupAux (x :: seen) xs

/-- First-occurrence deduplication (the element order of a Python dict /
set built by insertion). -/
def dedup {α : Type} [DecidableEq α] (l : List α) : List α :=
  dedupAux [] l

/-- The key list of a Python dict (first occurrences, in order). -/
def keysOf (d : List (String × Json)) : List String :=
  dedup (d.map (·.1))

/-! ### String operations used by the script (Python semantics) -/

/-- `chPre p l`: `p` is a prefix of the character list `l`
(Python `str.startswith`). -/
def chPre : List Char → List Char → Bool
  | [], _ => true
  | _ :: _, [] => false
  | a :: as, b :: bs => a == b && chPre as bs

/-- Python `s.startswith(p)`. -/
def startswithPy (s p : String) : Bool :=
  chPre p.data s.data

/-- Python `s.rstrip('/')`: remove all trailing slashes. -/
def rstripSlash (s : String) : String :=
  ⟨(s.data.reverse.dropWhile (· == '/')).reverse⟩

/-- Find the first occurrence of `sep` in `l`, returning the characters
before it and the characters after it. -/
def findSub (sep : List Char) : List Char → Option (List Char × List Char)
  | [] => if chPre sep [] then some ([], []) else none
  | c :: cs =>
    if chPre sep (c :: cs) then some ([], (c :: cs).drop sep.length)
    else (findSub sep cs).map (fun p => (c :: p.1, p.2))

/-- Python `sub in s` for strings (substring containment). -/
def containsSub (s sub : String) : Bool :=
  (findSub sub.data s.data).isSome

theorem findSub_post_lt (sep : List Char) (hsep : sep ≠ []) :
    ∀ l pre post, findSub sep l = some (pre, post) → post.length < l.length := by
  intro l
  induction l with
  | nil =>
      intro pre post h
      match sep, hsep with
      | c :: cs, _ => simp [findSub, chPre] at h
  | cons c cs ih =>
      intro pre post h
      rw [findSub] at h
      split at h
      · have hlen : 1 ≤ sep.length := by
          match sep, hsep with
          | c' :: cs', _ => simp
        simp only [Option.some.injEq, Prod.mk.injEq] at h
        rw [← h.2]
        simp only [List.length_drop, List.length_cons]
        omega
      · match hf : findSub sep cs with
        | none => rw [hf] at h; simp at h
        | some (pre', post') =>
            rw [hf] at h
            simp only [Option.map_some', Option.some.injEq, Prod.mk.injEq] at h
            have := ih pre' post' hf
            rw [← h.2]
            simp only [List.length_cons]
            omega

/-- Fuel-driven splitting loop; `findSub_post_lt` shows each step strictly
shrinks the remainder, so fuel `l.length + 1` never runs out
(`pySplit_eq` below certifies the intended recursion equation). -/
def pySplitF (sep : List Char) (fuel : Nat) (l : List Char) :
    List (List Char) :=
  match fuel with
  | 0 => [l]
  | fuel + 1 =>
    match findSub sep l with
    | none => [l]
    | some (pre, post) => pre :: pySplitF sep fuel post

/-- Python `s.split(sep)` for a nonempty separator. -/
def pySplit (sep : List Char) (l : List Char) : List (List Char) :=
  pySplitF sep (l.length + 1) l

theorem pySplitF_congr (sep : List Char) (hsep : sep ≠ []) :
    ∀ fuel₁ fuel₂ l, l.length < fuel₁ → l.length < fuel₂ →
      pySplitF sep fuel₁ l = pySplitF sep fuel₂ l := by
  intro fuel₁
  induction fuel₁ with
  | zero => intro fuel₂ l h1 h2; omega
  | succ f ih =>
      intro fuel₂ l h1 h2
      match fuel₂, h2 with
      | g + 1, _ =>
        simp only [pySplitF]
        match hf : findSub sep l with
        | none => rfl
        | some (pre, post) =>
            have hlt := findSub_post_lt sep hsep l pre post hf
            have heq : pySplitF sep f post = pySplitF sep g post :=
              ih g post (by omega) (by omega)
            dsimp only
            rw [heq]

/-- The recursion equation actually performed by Python `str.split`. -/
theorem pySplit_eq (sep : List Char) (hsep : sep ≠ []) (l : List Char) :
    pySplit sep l =
      match findSub sep l with
      | none => [l]
      | some (pre, post) => pre :: pySplit sep post := by
  show pySplitF sep (l.length + 1) l = _
  simp only [pySplitF]
  match hf : findSub sep l with
  | none => rfl
  | some (pre, post) =>
      have hlt := findSub_post_lt sep hsep l pre post hf
      show pre :: pySplitF sep l.length post = pre :: pySplit sep post
      rw [pySplitF_congr sep hsep l.length (post.length + 1) post (by omega)
        (by omega)]
      rfl

/-- Python `s.split(sep)` on strings. -/
def pySplitS (s sep : String) : List String :=
  (pySplit sep.data s.data).map (fun l => ⟨l⟩)

/-- Python `s.isalnum()`: nonempty and all characters alphanumeric. -/
def isalnumPy (s : String) : Bool :=
  !s.data.isEmpty && s.data.all Char.isAlphanum

example : pySplitS "a/webhooks/bcd?x" "/webhooks/" = ["a", "bcd?x"] := by decide
example : startswithPy "https://x/y" "https://x" = true := by decide
example : rstripSlash "https://x//" = "https://x" := by decide
example : containsSub "a/webhooks/b" "/webhooks/" = true := by decide
example : isalnumPy "abcdef1234" = true := by decide

/-! ### WebhookResolver (`normalize_webhook_identifier`,
`extract_webhook_key_from_response`, `resolve_existing_webhook`,
`create_webhook`, `create_or_resolve_port_webhook`) -/

def MIN_WEBHOOK_ID_LENGTH : Nat := 10

def HTTP_SUCCESS_THRESHOLD : Nat := 300

/-- `normalize_webhook_identifier` from the source: extract a webhook
identifier from an identifier, URL, or absent value. -/
def normalize_webhook_identifier (value : Option String) : String :=
  match value with
  | none => "aws_ingest"
  | some v =>
    if v = "" then "aws_ingest"
    else if containsSub v "/webhooks/" then
      let parts := pySplitS v "/webhooks/"
      if parts.length > 1 && parts.getD 1 "" ≠ "" then
        (pySplitS ((pySplitS (parts.getD 1 "") "?").headD "") "/").headD ""
      else v
    else v

/-- The walk `value = value.get(key, {}) if isinstance(value, dict) else None`
over the keys of one dotted path. -/
def walkPath (data : Json) : List String → Json
  | [] => data
  | k :: ks =>
    match data with
    | .obj d => walkPath (getDfltL d k (.obj [])) ks
    | _ => walkPath .null ks

/-- The direct-URL field paths tried first by the extractor. -/
def urlPaths : List String := ["url", "integration.url", "webhook.url"]

/-- The key/ID field paths tried second by the extractor. -/
def keyPaths : List String :=
  ["webhookKey", "integration.webhookKey", "webhook.webhookKey", "id", "_id"]

/-- First path whose value is a string starting with the ingest base. -/
def firstUrlHit (data : Json) (base : String) : List String → Option String
  | [] => none
  | p :: ps =>
    match walkPath data (pySplitS p ".") with
    | .str s => if startswithPy s base then some s else firstUrlHit data base ps
    | _ => firstUrlHit data base ps

/-- First path whose value is an alphanumeric identifier of sufficient
length; the result is `base ++ "/" ++ id`. -/
def firstKeyHit (data : Json) (base : String) : List String → Option String
  | [] => none
  | p :: ps =>
    match walkPath data (pySplitS p ".") with
    | .str s =>
        if decide (s.length ≥ MIN_WEBHOOK_ID_LENGTH) && isalnumPy s then
          some (base ++ "/" ++ s)
        else firstKeyHit data base ps
    | _ => firstKeyHit data base ps

/-- `extract_webhook_key_from_response` from the source. -/
def extract_webhook_key_from_response (data : Json) (ingest_base_url : String) :
    Option String :=
  let base := rstripSlash ingest_base_url
  match firstUrlHit data base urlPaths with
  | some v => some v
  | none => firstKeyHit data base keyPaths

/-- An HTTP response: status code and JSON body. -/
structure Resp where
  status : Nat
  body : Json

/-- An HTTP request issued by the script. -/
inductive Req where
  | get (url : String)
  | post (url : String) (body : Json)
  | patch (url : String) (body : Json)
  | delete (url : String)
  deriving DecidableEq

/-- `resolve_existing_webhook` from the source.  `env n` is the response to
the n-th HTTP call of the run; `k` is the index of the next call.  The
returned list is the requests issued, in order. -/
def resolve_existing_webhook (env : Nat → Resp) (k : Nat)
    (api_v1 identifier ingest_base_url : String) :
    Option String × Nat × List Req :=
  let get_url := api_v1 ++ "/webhooks/" ++ identifier
  let r := env k
  if r.status = 200 then
    (extract_webhook_key_from_response r.body ingest_base_url, k + 1,
      [Req.get get_url])
  else (none, k + 1, [Req.get get_url])

/-- The creation body used by `create_webhook`. -/
def webhookCreateBody (identifier : String) : Json :=
  .obj [("identifier", .str identifier),
        ("title", .str "AWS Serverless Webhook"),
        ("enabled", .bool true),
        ("security", .obj
          [("secret", .str ""), ("signatureHeaderName", .str ""),
           ("signatureAlgorithm", .str "sha256"), ("signaturePrefix", .str ""),
           ("requestIdentifierPath", .str "")]),
        ("mappings", .arr [])]

/-- `create_webhook` from the source. -/
def create_webhook (env : Nat → Resp) (k : Nat)
    (api_v1 identifier ingest_base_url : String) :
    Except Err String × Nat × List Req :=
  let r := env k
  let t := [Req.post (api_v1 ++ "/webhooks") (webhookCreateBody identifier)]
  if r.status ≥ HTTP_SUCCESS_THRESHOLD then
    (.error "PortSetupError: Failed to create webhook", k + 1, t)
  else
    match extract_webhook_key_from_response r.body ingest_base_url with
    | some url => (.ok url, k + 1, t)
    | none =>
      (.error "PortSetupError: Created webhook but ID not found in response",
        k + 1, t)

/-- The lookup-then-create fall-through of `create_or_resolve_port_webhook`
(source lines 271-279): resolve the existing webhook, else create it. -/
def webhookLookupOrCreate (env : Nat → Resp)
    (api_v1 identifier ingest_base_url : String) :
    Except Err String × Nat × List Req :=
  match resolve_existing_webhook env 0 api_v1 identifier ingest_base_url with
  | (some url, k, t) => (.ok url, k, t)
  | (none, k, t) =>
    match create_webhook env k api_v1 identifier ingest_base_url with
    | (res, k', t') => (res, k', t ++ t')

/-- `create_or_resolve_port_webhook` from the source. -/
def create_or_resolve_port_webhook (env : Nat → Resp)
    (base_url token integration_id : String) (webhook_opt : Option String)
    (ingest_base_url : String) : Except Err String × Nat × List Req :=
  let api_v1 := rstripSlash base_url ++ "/v1"
  let direct : Option String :=
    match webhook_opt with
    | some w =>
      if w ≠ "" then
        if startswithPy w "http://" || startswithPy w "https://" then
          if startswithPy w (rstripSlash ingest_base_url) then some w
          else
            some (rstripSlash ingest_base_url ++ "/" ++
              (pySplitS (rstripSlash w) "/").getLastD "")
        else if decide (w.length ≥ MIN_WEBHOOK_ID_LENGTH) && isalnumPy w then
          some (rstripSlash ingest_base_url ++ "/" ++ w)
        else none
      else none
    | none => none
  match direct with
  | some url => (.ok url, 0, [])
  | none =>
    webhookLookupOrCreate env api_v1 (normalize_webhook_identifier webhook_opt)
      ingest_base_url

example : normalize_webhook_identifier none = "aws_ingest" := by decide
example : normalize_webhook_identifier (some "https://a/webhooks/xyz?q=1")
    = "xyz" := by decide
example : normalize_webhook_identifier (some "plainid") = "plainid" := by decide

/-! ### IntegrationReconciler (`update_integration_config`,
`_create_integration`, `_verify_config_present`, `_retry_config_update`) -/

/-- The body inspection done by `_verify_config_present` on a 200 response:
unwrap an optional `integration` wrapper, require a dict `config`, and
report whether `config["resources"]` is truthy. -/
def verifyBody (data : Json) : Except Err Bool := do
  let hasInteg ← pyContains data "integration"
  let config ←
    if hasInteg then do
      let integ ← pySubscript data "integration"
      pyGetNull integ "config"
    else pyGetNull data "config"
  match config with
  | .obj d => return (getDfltL d "resources" .null).truthy
  | _ => return false

/-- `_verify_config_present` from the source: fetch the integration and
check that its config has resources. -/
def _verify_config_present (env : Nat → Resp) (k : Nat) (integ_url : String) :
    Except Err Bool × Nat × List Req :=
  let r := env k
  let t := [Req.get integ_url]
  if r.status ≠ 200 then (.ok false, k + 1, t)
  else (verifyBody r.body, k + 1, t)

/-- The creation body used by `_create_integration`. -/
def integrationCreateBody (integration_id : String) (port_app_config : Json) :
    Json :=
  .obj [("installationId", .str integration_id),
        ("installationAppType", .str "aws-serverless"),
        ("version", .str "1.0.0"),
        ("changelogDestination", .obj []),
        ("config", port_app_config)]

/-- `_create_integration` from the source: POST the integration; a failure
is logged but not raised. -/
def _create_integration (env : Nat → Resp) (k : Nat)
    (api_v1 integration_id : String) (port_app_config : Json) :
    Except Err Unit × Nat × List Req :=
  (.ok (), k + 1,
    [Req.post (api_v1 ++ "/integration")
      (integrationCreateBody integration_id port_app_config)])

/-- The PATCH body built by `update_integration_config`: a copy of the live
resource with `config` replaced and the read-only fields removed. -/
def patchBodyL (live : List (String × Json)) (port_app_config : Json) :
    List (String × Json) :=
  popL (popL (popL (setItemL live "config" port_app_config) "createdAt")
    "updatedAt") "ok"

/-- `live_data.copy(); patch_body["config"] = ...; pop read-only fields`:
errors (as Python does) when the fetched body is not a dict. -/
def mkPatchBody (live : Json) (port_app_config : Json) :
    Except Err Json :=
  match live with
  | .obj d => .ok (.obj (patchBodyL d port_app_config))
  | _ => .error "TypeError: body is not a dict"

/-- `_retry_config_update` from the source: subresource PATCH, verify,
then delete-and-recreate. -/
def _retry_config_update (env : Nat → Resp) (k : Nat)
    (integ_url : String) (port_app_config : Json)
    (integration_id api_v1 : String) : Except Err Unit × Nat × List Req :=
  let sub_url := integ_url ++ "/config"
  let r := env k
  let t0 := [Req.patch sub_url port_app_config]
  let fallback : Nat → List Req → Except Err Unit × Nat × List Req :=
    fun k1 tAcc =>
      let rd := env k1
      let t1 := tAcc ++ [Req.delete integ_url]
      if rd.status ≥ HTTP_SUCCESS_THRESHOLD then (.ok (), k1 + 1, t1)
      else
        match _create_integration env (k1 + 1) api_v1 integration_id
          port_app_config with
        | (res, k2, t2) => (res, k2, t1 ++ t2)
  if r.status < HTTP_SUCCESS_THRESHOLD then
    match _verify_config_present env (k + 1) integ_url with
    | (.error e, k1, t1) => (.error e, k1, t0 ++ t1)
    | (.ok true, k1, t1) => (.ok (), k1, t0 ++ t1)
    | (.ok false, k1, t1) => fallback k1 (t0 ++ t1)
  else fallback (k + 1) t0

/-- `update_integration_config` from the source: the reconciler's
fetch / create / update / verify / escalate state machine. -/
def update_integration_config (env : Nat → Resp) (k : Nat)
    (integ_url : String) (port_app_config : Json)
    (integration_id api_v1 : String) (force_recreate : Bool) :
    Except Err Unit × Nat × List Req :=
  let r := env k
  let t0 := [Req.get integ_url]
  if r.status = 404 then
    match _create_integration env (k + 1) api_v1 integration_id
      port_app_config with
    | (res, k1, t1) => (res, k1, t0 ++ t1)
  else if r.status ≠ 200 then (.ok (), k + 1, t0)
  else
    match mkPatchBody r.body port_app_config with
    | .error e => (.error e, k + 1, t0)
    | .ok pb =>
      let t1 := t0 ++ [Req.patch integ_url pb]
      if force_recreate then
        match _verify_config_present env (k + 2) integ_url with
        | (.error e, k2, t2) => (.error e, k2, t1 ++ t2)
        | (.ok true, k2, t2) => (.ok (), k2, t1 ++ t2)
        | (.ok false, k2, t2) =>
          match _retry_config_update env k2 integ_url port_app_config
            integration_id api_v1 with
          | (res, k3, t3) => (res, k3, t1 ++ t2 ++ t3)
      else (.ok (), k + 2, t1)

/-- Counts the subresource-config PATCH requests in a trace. -/
def countSubPatch (integ_url : String) (t : List Req) : Nat :=
  t.countP (fun r =>
    match r with
    | .patch u _ => u == integ_url ++ "/config"
    | _ => false)

/-- Counts the DELETE requests in a trace. -/
def countDelete (t : List Req) : Nat :=
  t.countP (fun r =>
    match r with
    | .delete _ => true
    | _ => false)

/-- Counts the integration-creation POST requests in a trace. -/
def countCreate (api_v1 : String) (t : List Req) : Nat :=
  t.countP (fun r =>
    match r with
    | .post u _ => u == api_v1 ++ "/integration"
    | _ => false)

/-! ### ConfigDiffEngine (`_compare_configs`, `_compare_mapping_fields`,
`_compare_properties`, `_compare_relations`) -/

/-- One structured difference entry, one constructor per `diffs.append`
emission site of the source (kinds are the raw `r.get("kind")` values;
`live`/`local` payloads use `Json.null` for Python `None`). -/
inductive DiffEntry where
  | missingInLive (kind : Json)
  | extraInLive (kind : Json)
  | fieldDiff (kind : Json) (field : String) (live localv : Json)
  | propMissingInLive (kind : Json) (key : String)
  | propExtraInLive (kind : Json) (key : String)
  | propDiff (kind : Json) (key : String) (live localv : Json)
  | relMissingInLive (kind : Json) (key : String)
  | relExtraInLive (kind : Json) (key : String)
  | relDiff (kind : Json) (key : String) (live localv : Json)
  deriving DecidableEq

/-- The kind a diff entry is about. -/
def DiffEntry.kindOf : DiffEntry → Json
  | .missingInLive k | .extraInLive k => k
  | .fieldDiff k _ _ _ => k
  | .propMissingInLive k _ | .propExtraInLive k _ | .propDiff k _ _ _ => k
  | .relMissingInLive k _ | .relExtraInLive k _ | .relDiff k _ _ _ => k

/-- Iterating a Python value (`for r in resources`). -/
def iterElems : Json → Except Err (List Json)
  | .arr l => .ok l
  | .str s => .ok (s.data.map (fun c => .str ⟨[c]⟩))
  | .obj d => .ok ((keysOf d).map .str)
  | _ => .error "TypeError: object is not iterable"

/-- `cfg.get("resources") or []`, then the iteration over it. -/
def getResources (cfg : Json) : Except Err (List Json) := do
  let raw ← pyGetNull cfg "resources"
  iterElems (if raw.truthy then raw else .arr [])

/-- First-match lookup in a Json-keyed dict. -/
def lookupK (d : List (Json × Json)) (k : Json) : Option Json :=
  match d with
  | [] => none
  | (k', v) :: t => if k' = k then some v else lookupK t k

/-- Python dict insertion: update the existing key in place, else append. -/
def insertK (d : List (Json × Json)) (k : Json) (v : Json) :
    List (Json × Json) :=
  if (lookupK d k).isSome then
    d.map (fun p => if p.1 = k then (k, v) else p)
  else d ++ [(k, v)]

/-- The dict comprehension
`{r.get("kind"): r for r in resources if r.get("kind")}` (falsy kinds are
filtered out; unhashable kinds raise, as in Python). -/
def indexByKindAux (d : List (Json × Json)) :
    List Json → Except Err (List (Json × Json))
  | [] => .ok d
  | r :: rs =>
    match pyGetNull r "kind" with
    | .error e => .error e
    | .ok k =>
      if k.truthy then
        match k with
        | .arr _ => .error "TypeError: unhashable dict key"
        | .obj _ => .error "TypeError: unhashable dict key"
        | _ => indexByKindAux (insertK d k r) rs
      else indexByKindAux d rs

def indexByKind (rs : List Json) : Except Err (List (Json × Json)) :=
  indexByKindAux [] rs

/-- Strict lexicographic order on sequences of naturals. -/
def lexNat : List Nat → List Nat → Bool
  | _, [] => false
  | [], _ :: _ => true
  | a :: as, b :: bs =>
    if a < b then true
    else if a = b then lexNat as bs
    else false

/-- Python `<` on strings: lexicographic by Unicode code point. -/
def strLtPy (a b : String) : Bool :=
  lexNat (a.data.map Char.toNat) (b.data.map Char.toNat)

/-- Python `<` between sort keys: defined for strings (lexicographic);
anything else raises TypeError. -/
def pyLt : Json → Json → Except Err Bool
  | .str a, .str b => .ok (strLtPy a b)
  | _, _ => .error "TypeError: unorderable types"

/-- Sorted insertion using Python comparison. -/
def insertPy (x : Json) : List Json → Except Err (List Json)
  | [] => .ok [x]
  | y :: ys => do
    let b ← pyLt x y
    if b then .ok (x :: y :: ys)
    else do
      let rest ← insertPy x ys
      .ok (y :: rest)

/-- Python `sorted(...)` over the kind keys (insertion sort; agrees with
Python's sort on duplicate-free string keys). -/
def sortKeysPy : List Json → Except Err (List Json)
  | [] => .ok []
  | x :: xs => do
    let s ← sortKeysPy xs
    insertPy x s

/-- `resource.get("port", {}).get("entity", {}).get("mappings", {})`. -/
def get_mappings (resource : Json) : Except Err Json := do
  let p ← pyGetDflt resource "port" (.obj [])
  let e ← pyGetDflt p "entity" (.obj [])
  pyGetDflt e "mappings" (.obj [])

/-- `_compare_mapping_fields` from the source: compare `identifier`,
`title`, `blueprint` pairwise, in that fixed order. -/
def _compare_mapping_fields (kind : Json) (local_mappings live_mappings : Json) :
    Except Err (List DiffEntry) := do
  let one : String → Except Err (List DiffEntry) := fun field => do
    let lv ← pyGetNull local_mappings field
    let vv ← pyGetNull live_mappings field
    if lv ≠ vv then return [.fieldDiff kind field vv lv] else return []
  let a ← one "identifier"
  let b ← one "title"
  let c ← one "blueprint"
  return a ++ b ++ c

/-- `m.get(key, {}) or {}` followed by the `.keys()` accesses: the value
must be a dict (absent or falsy values count as empty). -/
def mapSection (m : Json) (key : String) :
    Except Err (List (String × Json)) := do
  let raw ← pyGetDflt m key (.obj [])
  match (if raw.truthy then raw else .obj []) with
  | .obj d => return d
  | _ => .error "AttributeError: keys"

/-- The shared missing/extra/changed walk of `_compare_properties` and
`_compare_relations`.  Python's unordered key sets are modelled as the
(duplicate-free) key lists in dict order. -/
def comparePairs (kind : Json) (localD liveD : List (String × Json))
    (mkMissing mkExtra : Json → String → DiffEntry)
    (mkDiff : Json → String → Json → Json → DiffEntry) : List DiffEntry :=
  let lk := keysOf localD
  let vk := keysOf liveD
  let missing := (lk.filter (fun k => !vk.contains k)).map (mkMissing kind)
  let extra := (vk.filter (fun k => !lk.contains k)).map (mkExtra kind)
  let changed := (lk.filter (fun k => vk.contains k)).filterMap (fun k =>
    match lookupL localD k, lookupL liveD k with
    | some lv, some vv =>
        if lv ≠ vv then some (mkDiff kind k vv lv) else none
    | _, _ => none)
  missing ++ extra ++ changed

/-- `_compare_properties` from the source. -/
def _compare_properties (kind : Json) (local_mappings live_mappings : Json) :
    Except Err (List DiffEntry) := do
  let localD ← mapSection local_mappings "properties"
  let liveD ← mapSection live_mappings "properties"
  return comparePairs kind localD liveD .propMissingInLive .propExtraInLive
    .propDiff

/-- `_compare_relations` from the source. -/
def _compare_relations (kind : Json) (local_mappings live_mappings : Json) :
    Except Err (List DiffEntry) := do
  let localD ← mapSection local_mappings "relations"
  let liveD ← mapSection live_mappings "relations"
  return comparePairs kind localD liveD .relMissingInLive .relExtraInLive
    .relDiff

/-- The body of the `for kind in all_kinds` loop of `_compare_configs`. -/
def compareKind (live_idx local_idx : List (Json × Json)) (kind : Json) :
    Except Err (List DiffEntry) :=
  let local_resource := (lookupK local_idx kind).getD .null
  let live_resource := (lookupK live_idx kind).getD .null
  if !live_resource.truthy then .ok [.missingInLive kind]
  else if !local_resource.truthy then .ok [.extraInLive kind]
  else do
    let local_mappings ← get_mappings local_resource
    let live_mappings ← get_mappings live_resource
    let f ← _compare_mapping_fields kind local_mappings live_mappings
    let p ← _compare_properties kind local_mappings live_mappings
    let r ← _compare_relations kind local_mappings live_mappings
    return f ++ p ++ r

/-- The loop over the sorted kinds, concatenating the emitted entries. -/
def compareKinds (live_idx local_idx : List (Json × Json)) :
    List Json → Except Err (List DiffEntry)
  | [] => .ok []
  | k :: ks => do
    let b ← compareKind live_idx local_idx k
    let rest ← compareKinds live_idx local_idx ks
    return b ++ rest

/-- `_compare_configs` from the source: the diff engine entry point. -/
def _compare_configs (live_cfg local_cfg : Json) :
    Except Err (List DiffEntry) := do
  let live_resources ← getResources live_cfg
  let local_resources ← getResources local_cfg
  let live_idx ← indexByKind live_resources
  let local_idx ← indexByKind local_resources
  let all_kinds ← sortKeysPy
    (dedup (live_idx.map (·.1) ++ local_idx.map (·.1)))
  compareKinds live_idx local_idx all_kinds

/-- The live/local duality on entries: missing and extra swap, and the
changed-value entries swap their live and local payloads. -/
def DiffEntry.dual : DiffEntry → DiffEntry
  | .missingInLive k => .extraInLive k
  | .extraInLive k => .missingInLive k
  | .fieldDiff k f a b => .fieldDiff k f b a
  | .propMissingInLive k key => .propExtraInLive k key
  | .propExtraInLive k key => .propMissingInLive k key
  | .propDiff k key a b => .propDiff k key b a
  | .relMissingInLive k key => .relExtraInLive k key
  | .relExtraInLive k key => .relMissingInLive k key
  | .relDiff k key a b => .relDiff k key b a


/-! ### Helper lemmas on prefixes -/

theorem strDataAppend (a b : String) : (a ++ b).data = a.data ++ b.data := rfl

theorem chPre_append (p rest : List Char) : chPre p (p ++ rest) = true := by
  induction p with
  | nil => rfl
  | cons c cs ih => simp [chPre, ih]

theorem startswithPy_append (a b : String) : startswithPy (a ++ b) a = true := by
  show chPre a.data (a ++ b).data = true
  rw [strDataAppend]
  exact chPre_append a.data b.data

theorem startswithPy_append2 (a b c : String) :
    startswithPy (a ++ b ++ c) a = true := by
  show chPre a.data (a ++ b ++ c).data = true
  rw [strDataAppend, strDataAppend, List.append_assoc]
  exact chPre_append a.data _

theorem firstUrlHit_startswith (data : Json) (base : String) :
    ∀ ps v, firstUrlHit data base ps = some v →
      startswithPy v base = true := by
  intro ps
  induction ps with
  | nil => intro v h; simp [firstUrlHit] at h
  | cons p ps ih =>
      intro v h
      rw [firstUrlHit] at h
      split at h
      · split at h
        · cases h
          assumption
        · exact ih v h
      · exact ih v h

theorem firstKeyHit_startswith (data : Json) (base : String) :
    ∀ ps v, firstKeyHit data base ps = some v →
      startswithPy v base = true := by
  intro ps
  induction ps with
  | nil => intro v h; simp [firstKeyHit] at h
  | cons p ps ih =>
      intro v h
      rw [firstKeyHit] at h
      split at h
      · split at h
        · cases h
          exact startswithPy_append2 base "/" _
        · exact ih v h
      · exact ih v h

theorem extract_startswith (data : Json) (ingest : String) (v : String)
    (h : extract_webhook_key_from_response data ingest = some v) :
    startswithPy v (rstripSlash ingest) = true := by
  unfold extract_webhook_key_from_response at h
  dsimp only at h
  cases hu : firstUrlHit data (rstripSlash ingest) urlPaths with
  | some u =>
      rw [hu] at h
      cases h
      exact firstUrlHit_startswith data _ urlPaths v hu
  | none =>
      rw [hu] at h
      exact firstKeyHit_startswith data _ keyPaths v h

theorem resolve_existing_startswith (env : Nat → Resp) (k : Nat)
    (api_v1 identifier ingest : String) (url : String) (k' : Nat)
    (t : List Req)
    (h : resolve_existing_webhook env k api_v1 identifier ingest
      = (some url, k', t)) :
    startswithPy url (rstripSlash ingest) = true := by
  unfold resolve_existing_webhook at h
  dsimp only at h
  split at h
  · simp only [Prod.mk.injEq] at h
    exact extract_startswith _ _ _ h.1
  · simp at h

theorem create_webhook_startswith (env : Nat → Resp) (k : Nat)
    (api_v1 identifier ingest : String) (url : String) (k' : Nat)
    (t : List Req)
    (h : create_webhook env k api_v1 identifier ingest = (.ok url, k', t)) :
    startswithPy url (rstripSlash ingest) = true := by
  unfold create_webhook at h
  dsimp only at h
  split at h
  · simp at h
  · split at h
    · rename_i u hu
      simp only [Prod.mk.injEq, Except.ok.injEq] at h
      rw [← h.1]
      exact extract_startswith _ _ _ hu
    · simp at h

theorem webhookLookupOrCreate_startswith (env : Nat → Resp)
    (api_v1 identifier ingest : String) (url : String) (k : Nat)
    (t : List Req)
    (h : webhookLookupOrCreate env api_v1 identifier ingest
      = (.ok url, k, t)) :
    startswithPy url (rstripSlash ingest) = true := by
  unfold webhookLookupOrCreate at h
  rcases hr : resolve_existing_webhook env 0 api_v1 identifier ingest with
    ⟨o, k1, t1⟩
  rw [hr] at h
  dsimp only at h
  cases o with
  | some u =>
      simp only [Prod.mk.injEq, Except.ok.injEq] at h
      rw [← h.1]
      exact resolve_existing_startswith env 0 api_v1 identifier ingest u k1 t1 hr
  | none =>
      dsimp only at h
      rcases hc : create_webhook env k1 api_v1 identifier ingest with ⟨res, k2, t2⟩
      rw [hc] at h
      simp only [Prod.mk.injEq] at h
      rw [h.1] at hc
      exact create_webhook_startswith env k1 api_v1 identifier ingest url k2 t2 hc

/-- C2 counterexample: with configured ingest base URL `"https://x/"`
(which carries a trailing slash) and the accepted full-URL reference
`"https://x"`, `create_or_resolve_port_webhook` returns `"https://x"`,
which does not begin with the configured ingest base URL. -/
theorem c2_counterexample :
    (create_or_resolve_port_webhook (fun _ => ⟨200, .null⟩) "https://api" ""
      "" (some "https://x") "https://x/").1 = .ok "https://x"
    ∧ startswithPy "https://x" "https://x/" = false := ⟨rfl, rfl⟩

/-- C2 (amended): for every accepted WebhookReference of any of the four
shapes and every configured ingest base URL, whenever
`create_or_resolve_port_webhook` returns a URL rather than failing, that
URL begins with the configured ingest base URL stripped of trailing
slashes. -/
theorem c2_webhook_url_invariant (env : Nat → Resp)
    (base_url token integration_id : String) (webhook_opt : Option String)
    (ingest : String) (url : String) (k : Nat) (t : List Req)
    (h : create_or_resolve_port_webhook env base_url token integration_id
      webhook_opt ingest = (.ok url, k, t)) :
    startswithPy url (rstripSlash ingest) = true := by
  unfold create_or_resolve_port_webhook at h
  cases webhook_opt with
  | none =>
      exact webhookLookupOrCreate_startswith env _ _ ingest url k t h
  | some w =>
      dsimp only at h
      by_cases hw : w = ""
      · rw [if_neg (by simp [hw])] at h
        exact webhookLookupOrCreate_startswith env _ _ ingest url k t h
      · rw [if_pos (by simpa using hw)] at h
        by_cases hhttp : (startswithPy w "http://" || startswithPy w "https://") = true
        · rw [if_pos hhttp] at h
          by_cases hpre : startswithPy w (rstripSlash ingest) = true
          · rw [if_pos hpre] at h
            simp only [Prod.mk.injEq, Except.ok.injEq] at h
            rw [← h.1]
            exact hpre
          · rw [if_neg hpre] at h
            simp only [Prod.mk.injEq, Except.ok.injEq] at h
            rw [← h.1]
            exact startswithPy_append2 _ "/" _
        · rw [if_neg hhttp] at h
          by_cases hid : (decide (w.length ≥ MIN_WEBHOOK_ID_LENGTH)
              && isalnumPy w) = true
          · rw [if_pos hid] at h
            simp only [Prod.mk.injEq, Except.ok.injEq] at h
            rw [← h.1]
            exact startswithPy_append2 _ "/" _
          · rw [if_neg hid] at h
            exact webhookLookupOrCreate_startswith env _ _ ingest url k t h

/-- C2 witness: the bare-identifier shape at a concrete input. -/
theorem c2_webhook_url_invariant_witness :
    startswithPy "https://ing/abcdef1234" (rstripSlash "https://ing/") = true :=
  c2_webhook_url_invariant (fun _ => ⟨200, .null⟩) "b" "t" "i"
    (some "abcdef1234") "https://ing/" "https://ing/abcdef1234" 0 [] rfl

/-! ### Claim C4: not-found routes to creation -/

/-- C4: when the initial fetch of the integration returns 404, the
reconciler creates the integration with the desired config attached and
terminates successfully, issuing no update, no verification fetch and no
delete — for every environment and whether or not strict verification was
requested. -/
theorem c4_not_found_creates (env : Nat → Resp) (integ_url : String)
    (cfg : Json) (integration_id api_v1 : String) (force_recreate : Bool)
    (h404 : (env 0).status = 404) :
    update_integration_config env 0 integ_url cfg integration_id api_v1
      force_recreate
    = (.ok (), 2, [Req.get integ_url,
        Req.post (api_v1 ++ "/integration")
          (integrationCreateBody integration_id cfg)]) := by
  unfold update_integration_config _create_integration
  dsimp only
  rw [h404]
  simp

/-- C4 witness. -/
theorem c4_not_found_creates_witness :
    update_integration_config (fun _ => ⟨404, .null⟩) 0 "http://i" (.obj [])
      "id" "http://a" true
    = (.ok (), 2, [Req.get "http://i",
        Req.post ("http://a" ++ "/integration")
          (integrationCreateBody "id" (.obj []))]) :=
  c4_not_found_creates (fun _ => ⟨404, .null⟩) "http://i" (.obj []) "id"
    "http://a" true rfl

/-! ### Claim C1: behaviour after a failed update PATCH -/

/-- Environment for the C1 counterexample: fetch finds the integration,
the update PATCH fails at the transport level (500), and all later fetches
show an empty resource-mapping collection. -/
def c1Env : Nat → Resp := fun k =>
  match k with
  | 0 => ⟨200, .obj []⟩
  | 1 => ⟨500, .null⟩
  | 2 => ⟨200, .obj [("config", .obj [("resources", .arr [])])]⟩
  | 4 => ⟨200, .obj [("config", .obj [("resources", .arr [])])]⟩
  | _ => ⟨200, .null⟩

/-- C1 counterexample: with strict verification opted in
(`force_recreate = true`), a run whose update PATCH fails at the transport
level still issues a verification re-fetch, a subresource config PATCH and
a delete+recreate — the code does attempt recovery after the failed
update, contradicting the claim's "regardless of whether the caller opted
into strict verification". -/
theorem c1_counterexample :
    HTTP_SUCCESS_THRESHOLD ≤ (c1Env 1).status
    ∧ (update_integration_config c1Env 0 "http://i" (.obj []) "id"
        "http://a" true).2.2
      = [Req.get "http://i",
         Req.patch "http://i" (.obj [("config", .obj [])]),
         Req.get "http://i",
         Req.patch ("http://i" ++ "/config") (.obj []),
         Req.get "http://i",
         Req.delete "http://i",
         Req.post ("http://a" ++ "/integration")
           (integrationCreateBody "id" (.obj []))]
    ∧ countSubPatch "http://i"
        (update_integration_config c1Env 0 "http://i" (.obj []) "id"
          "http://a" true).2.2 = 1
    ∧ countDelete
        (update_integration_config c1Env 0 "http://i" (.obj []) "id"
          "http://a" true).2.2 = 1 := by
  refine ⟨by decide, rfl, rfl, rfl⟩

/-- C1 (amended): when the integration exists and the update PATCH fails
at the transport level, the failure is only logged; if the caller did not
opt into strict verification the run stops there with no verification
re-fetch, no subresource config PATCH and no delete/recreate (with the
opt-in, verification and the escalation chain run even after the failed
update).  The theorem shows the no-opt-in run issues exactly the fetch and
the update PATCH, whatever the PATCH's response status. -/
theorem c1_no_recovery_without_opt_in (env : Nat → Resp) (integ_url : String)
    (cfg : Json) (integration_id api_v1 : String) (d : List (String × Json))
    (h200 : (env 0).status = 200) (hbody : (env 0).body = .obj d) :
    update_integration_config env 0 integ_url cfg integration_id api_v1 false
    = (.ok (), 2, [Req.get integ_url,
        Req.patch integ_url (.obj (patchBodyL d cfg))]) := by
  unfold update_integration_config
  dsimp only
  rw [h200, hbody]
  simp [mkPatchBody]

/-- C1 witness for the amended theorem. -/
theorem c1_no_recovery_without_opt_in_witness :
    update_integration_config (fun _ => ⟨200, .obj []⟩) 0 "http://i"
      (.obj []) "id" "http://a" false
    = (.ok (), 2, [Req.get "http://i",
        Req.patch "http://i" (.obj (patchBodyL [] (.obj [])))]) :=
  c1_no_recovery_without_opt_in (fun _ => ⟨200, .obj []⟩) "http://i"
    (.obj []) "id" "http://a" [] rfl rfl

/-! ### Claim C3: the verification-escalation chain -/

theorem self_ne_append_config (iu : String) :
    (iu == iu ++ "/config") = false := by
  apply beq_eq_false_iff_ne.mpr
  intro he
  have hd : iu.data = (iu ++ "/config").data := by rw [← he]
  rw [strDataAppend] at hd
  have hl := congrArg List.length hd
  simp at hl

/-- `_verify_config_present` always issues exactly the one re-fetch and
advances the call counter by one. -/
theorem verify_config_present_shape (env : Nat → Resp) (k : Nat)
    (iu : String) :
    _verify_config_present env k iu
    = ((_verify_config_present env k iu).1, k + 1, [Req.get iu]) := by
  unfold _verify_config_present
  dsimp only
  split <;> rfl

/-- Bound on the recovery calls issued by `_retry_config_update`:
at most one subresource PATCH, one DELETE, one creation POST. -/
theorem retry_config_update_counts (env : Nat → Resp) (k : Nat)
    (iu : String) (cfg : Json) (iid api : String) :
    countSubPatch iu (_retry_config_update env k iu cfg iid api).2.2 ≤ 1
    ∧ countDelete (_retry_config_update env k iu cfg iid api).2.2 ≤ 1
    ∧ countCreate api (_retry_config_update env k iu cfg iid api).2.2 ≤ 1 := by
  unfold _retry_config_update
  dsimp only
  rw [verify_config_present_shape env (k + 1) iu]
  by_cases hs : (env k).status < HTTP_SUCCESS_THRESHOLD
  · rw [if_pos hs]
    generalize (_verify_config_present env (k + 1) iu).1 = vres
    cases vres with
    | error e =>
        simp [countSubPatch, countDelete, countCreate, List.countP_append,
          List.countP_cons, self_ne_append_config]
    | ok b =>
        cases b with
        | true =>
            simp [countSubPatch, countDelete, countCreate, List.countP_append,
              List.countP_cons, self_ne_append_config]
        | false =>
            dsimp only [_create_integration]
            split <;>
              simp [countSubPatch, countDelete, countCreate,
                List.countP_append, List.countP_cons, self_ne_append_config]
  · rw [if_neg hs]
    dsimp only [_create_integration]
    split <;>
      simp [countSubPatch, countDelete, countCreate, List.countP_append,
        List.countP_cons, self_ne_append_config]

/-- Bound on the recovery calls of a whole reconciler run: at most one
subresource PATCH, one DELETE, one creation POST, for every environment
and verification flag — the escalation chain cannot loop. -/
theorem update_integration_config_counts (env : Nat → Resp) (k : Nat)
    (iu : String) (cfg : Json) (iid api : String) (force : Bool) :
    countSubPatch iu
      (update_integration_config env k iu cfg iid api force).2.2 ≤ 1
    ∧ countDelete
      (update_integration_config env k iu cfg iid api force).2.2 ≤ 1
    ∧ countCreate api
      (update_integration_config env k iu cfg iid api force).2.2 ≤ 1 := by
  unfold update_integration_config
  dsimp only
  by_cases h404 : (env k).status = 404
  · rw [if_pos h404]
    simp [_create_integration, countSubPatch, countDelete, countCreate,
      List.countP_append, List.countP_cons, self_ne_append_config]
  · rw [if_neg h404]
    by_cases h200 : (env k).status ≠ 200
    · rw [if_pos h200]
      simp [countSubPatch, countDelete, countCreate, List.countP_cons,
        self_ne_append_config]
    · rw [if_neg h200]
      generalize mkPatchBody (env k).body cfg = mk
      cases mk with
      | error e =>
          simp [countSubPatch, countDelete, countCreate, List.countP_cons,
            self_ne_append_config]
      | ok pb =>
          cases force with
          | false =>
              simp [countSubPatch, countDelete, countCreate,
                List.countP_append, List.countP_cons, self_ne_append_config]
          | true =>
              try dsimp only
              try rw [if_pos rfl]
              rw [verify_config_present_shape env (k + 2) iu]
              generalize (_verify_config_present env (k + 2) iu).1 = vres
              cases vres with
              | error e =>
                  simp [countSubPatch, countDelete, countCreate,
                    List.countP_append, List.countP_cons,
                    self_ne_append_config]
              | ok b =>
                  cases b with
                  | true =>
                      simp [countSubPatch, countDelete, countCreate,
                        List.countP_append, List.countP_cons,
                        self_ne_append_config]
                  | false =>
                      have hb := retry_config_update_counts env (k + 2 + 1)
                        iu cfg iid api
                      simp only [countSubPatch, countDelete, countCreate,
                        List.countP_append, List.countP_cons,
                        List.countP_nil] at hb ⊢
                      simp [self_ne_append_config] at hb ⊢
                      exact ⟨hb.1, hb.2.1, hb.2.2⟩

/-- A re-fetch response that arrives with status 200 but whose body shows
no resource mappings present (the `config` carries an empty or falsy
`resources` collection, or no usable config at all). -/
def respShowsEmptyMappings (r : Resp) : Prop :=
  r.status = 200 ∧ verifyBody r.body = .ok false

/-- C3: when the update succeeds, strict verification is opted in and the
re-fetch shows an empty resource-mapping collection, the engine issues the
subresource config PATCH; when verification after that patch still shows
empty mappings, it issues exactly one DELETE followed by exactly one
creation with the desired config.  Moreover, for every environment and
flag, a run issues at most one subresource PATCH, one DELETE and one
creation — the escalation chain is bounded and never loops. -/
theorem c3_escalation_chain (env : Nat → Resp) (iu : String) (cfg : Json)
    (iid api : String) (d : List (String × Json))
    (h0 : (env 0).status = 200) (h0b : (env 0).body = .obj d)
    (h1 : (env 1).status < HTTP_SUCCESS_THRESHOLD)
    (h2 : respShowsEmptyMappings (env 2))
    (h3 : (env 3).status < HTTP_SUCCESS_THRESHOLD)
    (h4 : respShowsEmptyMappings (env 4))
    (h5 : (env 5).status < HTTP_SUCCESS_THRESHOLD) :
    update_integration_config env 0 iu cfg iid api true
    = (.ok (), 7,
        [Req.get iu, Req.patch iu (.obj (patchBodyL d cfg)), Req.get iu,
         Req.patch (iu ++ "/config") cfg, Req.get iu, Req.delete iu,
         Req.post (api ++ "/integration") (integrationCreateBody iid cfg)])
    ∧ ∀ (envA : Nat → Resp) (force : Bool),
        countSubPatch iu
          (update_integration_config envA 0 iu cfg iid api force).2.2 ≤ 1
        ∧ countDelete
          (update_integration_config envA 0 iu cfg iid api force).2.2 ≤ 1
        ∧ countCreate api
          (update_integration_config envA 0 iu cfg iid api force).2.2 ≤ 1 := by
  constructor
  · obtain ⟨h2s, h2v⟩ := h2
    obtain ⟨h4s, h4v⟩ := h4
    have h5' : ¬ ((env 5).status ≥ HTTP_SUCCESS_THRESHOLD) := by omega
    simp only [update_integration_config, _verify_config_present,
      _retry_config_update, _create_integration, mkPatchBody]
    norm_num [h0, h0b, h2s, h2v, h4s, h4v, h3, h5']
  · intro envA force
    exact update_integration_config_counts envA 0 iu cfg iid api force

/-- Environment for the C3 witness: found integration, successful update,
both verification fetches show an empty resource collection, subresource
PATCH and DELETE succeed. -/
def c3Env : Nat → Resp := fun k =>
  match k with
  | 0 => ⟨200, .obj []⟩
  | 2 => ⟨200, .obj [("config", .obj [("resources", .arr [])])]⟩
  | 4 => ⟨200, .obj [("config", .obj [("resources", .arr [])])]⟩
  | _ => ⟨200, .null⟩

/-- C3 witness. -/
theorem c3_escalation_chain_witness :
    update_integration_config c3Env 0 "http://i" (.obj []) "id" "http://a"
      true
    = (.ok (), 7,
        [Req.get "http://i",
         Req.patch "http://i" (.obj (patchBodyL [] (.obj []))),
         Req.get "http://i",
         Req.patch ("http://i" ++ "/config") (.obj []),
         Req.get "http://i", Req.delete "http://i",
         Req.post ("http://a" ++ "/integration")
           (integrationCreateBody "id" (.obj []))]) :=
  (c3_escalation_chain c3Env "http://i" (.obj []) "id" "http://a" [] rfl rfl
    (by decide) ⟨rfl, rfl⟩ (by decide) ⟨rfl, rfl⟩ (by decide)).1

/-! ### Claim C9: the update writes back the live resource with only
`config` replaced and the read-only fields removed -/

theorem lookupL_append (d₁ d₂ : List (String × Json)) (k : String) :
    lookupL (d₁ ++ d₂) k
    = match lookupL d₁ k with
      | some v => some v
      | none => lookupL d₂ k := by
  induction d₁ with
  | nil => rfl
  | cons p t ih =>
      rcases p with ⟨k₀, w⟩
      rw [List.cons_append, lookupL, lookupL]
      by_cases h0 : k₀ = k
      · rw [if_pos h0, if_pos h0]
      · rw [if_neg h0, if_neg h0]
        exact ih

theorem lookupL_filter_keep (q : String × Json → Bool)
    (d : List (String × Json)) (k : String)
    (hq : ∀ v, q (k, v) = true) :
    lookupL (d.filter q) k = lookupL d k := by
  induction d with
  | nil => rfl
  | cons p t ih =>
      rcases p with ⟨k₀, v⟩
      rw [List.filter_cons]
      by_cases h0 : k₀ = k
      · subst h0
        rw [if_pos (by rw [hq v])]
        rw [lookupL, lookupL, if_pos rfl, if_pos rfl]
      · cases hqv : q (k₀, v) with
        | false =>
            rw [if_neg (by simp)]
            rw [lookupL, if_neg h0]
            exact ih
        | true =>
            rw [if_pos rfl]
            rw [lookupL, lookupL, if_neg h0, if_neg h0]
            exact ih

theorem lookupL_filter_drop (q : String × Json → Bool)
    (d : List (String × Json)) (k : String)
    (hq : ∀ v, q (k, v) = false) :
    lookupL (d.filter q) k = none := by
  induction d with
  | nil => rfl
  | cons p t ih =>
      rcases p with ⟨k₀, v⟩
      rw [List.filter_cons]
      by_cases h0 : k₀ = k
      · subst h0
        rw [if_neg (by rw [hq v]; simp)]
        exact ih
      · cases hqv : q (k₀, v) with
        | false =>
            rw [if_neg (by simp)]
            exact ih
        | true =>
            rw [if_pos rfl]
            rw [lookupL, if_neg h0]
            exact ih

theorem lookupL_popL_ne (d : List (String × Json)) (k k' : String)
    (h : k ≠ k') : lookupL (popL d k') k = lookupL d k :=
  lookupL_filter_keep _ d k (fun v => by simpa using h)

theorem lookupL_popL_self (d : List (String × Json)) (k : String) :
    lookupL (popL d k) k = none :=
  lookupL_filter_drop _ d k (fun v => by simp)

theorem lookupL_map_update_ne (d : List (String × Json)) (k k' : String)
    (v : Json) (h : k' ≠ k) :
    lookupL (d.map (fun p => if p.1 = k then (k, v) else p)) k'
    = lookupL d k' := by
  induction d with
  | nil => rfl
  | cons p t ih =>
      rcases p with ⟨k₀, w⟩
      rw [List.map_cons]
      dsimp only
      by_cases h0 : k₀ = k
      · rw [if_pos h0]
        rw [lookupL, lookupL, if_neg (fun he => h he.symm),
          if_neg (fun he : k₀ = k' => h (by rw [← he, h0]))]
        exact ih
      · rw [if_neg h0]
        rw [lookupL, lookupL]
        by_cases h1 : k₀ = k'
        · rw [if_pos h1, if_pos h1]
        · rw [if_neg h1, if_neg h1]
          exact ih

theorem lookupL_map_update_self (d : List (String × Json)) (k : String)
    (v : Json) (hp : (lookupL d k).isSome) :
    lookupL (d.map (fun p => if p.1 = k then (k, v) else p)) k
    = some v := by
  induction d with
  | nil => simp [lookupL] at hp
  | cons p t ih =>
      rcases p with ⟨k₀, w⟩
      rw [List.map_cons]
      dsimp only
      by_cases h0 : k₀ = k
      · rw [if_pos h0]
        rw [lookupL, if_pos rfl]
      · rw [if_neg h0]
        rw [lookupL, if_neg h0]
        rw [lookupL, if_neg h0] at hp
        exact ih hp

theorem lookupL_setItemL_self (d : List (String × Json)) (k : String)
    (v : Json) : lookupL (setItemL d k v) k = some v := by
  unfold setItemL
  by_cases hp : (lookupL d k).isSome
  · rw [if_pos hp]
    exact lookupL_map_update_self d k v hp
  · rw [if_neg hp]
    have hn : lookupL d k = none := by
      cases hl : lookupL d k with
      | none => rfl
      | some w => rw [hl] at hp; simp at hp
    rw [lookupL_append, hn, lookupL, if_pos rfl]

theorem lookupL_setItemL_ne (d : List (String × Json)) (k k' : String)
    (v : Json) (h : k' ≠ k) :
    lookupL (setItemL d k v) k' = lookupL d k' := by
  unfold setItemL
  by_cases hp : (lookupL d k).isSome
  · rw [if_pos hp]
    exact lookupL_map_update_ne d k k' v h
  · rw [if_neg hp]
    rw [lookupL_append]
    cases hl : lookupL d k' with
    | none => rw [lookupL, if_neg (fun he => h he.symm), lookupL]
    | some w => rfl

/-- C9: when the reconciler updates an existing integration, the PATCH it
issues carries the fetched live resource with only the `config` field
replaced by the desired configuration and the server-managed fields
(`createdAt`, `updatedAt`, `ok`) removed; every other field of the live
resource is carried over unchanged. -/
theorem c9_update_body_frame (env : Nat → Resp) (iu : String) (cfg : Json)
    (iid api : String) (force : Bool) (d : List (String × Json))
    (h200 : (env 0).status = 200) (hbody : (env 0).body = .obj d) :
    (update_integration_config env 0 iu cfg iid api force).2.2.take 2
      = [Req.get iu, Req.patch iu (.obj (patchBodyL d cfg))]
    ∧ lookupL (patchBodyL d cfg) "config" = some cfg
    ∧ lookupL (patchBodyL d cfg) "createdAt" = none
    ∧ lookupL (patchBodyL d cfg) "updatedAt" = none
    ∧ lookupL (patchBodyL d cfg) "ok" = none
    ∧ ∀ f, f ∉ ["config", "createdAt", "updatedAt", "ok"] →
        lookupL (patchBodyL d cfg) f = lookupL d f := by
  refine ⟨?_, ?_, ?_, ?_, ?_, ?_⟩
  · unfold update_integration_config
    dsimp only
    rw [h200, hbody]
    simp only [mkPatchBody]
    norm_num
    cases force with
    | false => simp
    | true =>
        rw [verify_config_present_shape env 2 iu]
        generalize (_verify_config_present env 2 iu).1 = vres
        rcases vres with e | b
        · simp
        · cases b <;> simp
  · unfold patchBodyL
    rw [lookupL_popL_ne _ _ _ (by decide), lookupL_popL_ne _ _ _ (by decide),
      lookupL_popL_ne _ _ _ (by decide), lookupL_setItemL_self]
  · unfold patchBodyL
    rw [lookupL_popL_ne _ _ _ (by decide), lookupL_popL_ne _ _ _ (by decide),
      lookupL_popL_self]
  · unfold patchBodyL
    rw [lookupL_popL_ne _ _ _ (by decide), lookupL_popL_self]
  · unfold patchBodyL
    rw [lookupL_popL_self]
  · intro f hf
    simp only [List.mem_cons, List.not_mem_nil, or_false] at hf
    push_neg at hf
    obtain ⟨h1, h2, h3, h4⟩ := hf
    unfold patchBodyL
    rw [lookupL_popL_ne _ _ _ h4, lookupL_popL_ne _ _ _ h3,
      lookupL_popL_ne _ _ _ h2, lookupL_setItemL_ne _ _ _ _ h1]

/-- C9 witness at a concrete live resource. -/
theorem c9_update_body_frame_witness :
    (update_integration_config
      (fun _ => ⟨200, .obj [("createdAt", .str "x"), ("foo", .str "y")]⟩) 0
      "http://i" (.obj []) "id" "http://a" false).2.2.take 2
      = [Req.get "http://i",
         Req.patch "http://i"
           (.obj (patchBodyL [("createdAt", .str "x"), ("foo", .str "y")]
             (.obj [])))]
    ∧ lookupL (patchBodyL [("createdAt", .str "x"), ("foo", .str "y")]
        (.obj [])) "foo"
      = lookupL [("createdAt", .str "x"), ("foo", .str "y")] "foo" :=
  ⟨(c9_update_body_frame
      (fun _ => ⟨200, .obj [("createdAt", .str "x"), ("foo", .str "y")]⟩)
      "http://i" (.obj []) "id" "http://a" false
      [("createdAt", .str "x"), ("foo", .str "y")] rfl rfl).1,
   (c9_update_body_frame
      (fun _ => ⟨200, .obj [("createdAt", .str "x"), ("foo", .str "y")]⟩)
      "http://i" (.obj []) "id" "http://a" false
      [("createdAt", .str "x"), ("foo", .str "y")] rfl rfl).2.2.2.2.2 "foo"
      (by decide)⟩

/-! ### Claim C10: falsy-kind resources are dropped by the indexing -/

theorem bindOk {α β : Type} (a : α) (f : α → Except Err β) :
    (Except.ok a >>= f) = f a := rfl

theorem bindErr {α β : Type} (e : Err) (f : α → Except Err β) :
    ((Except.error e : Except Err α) >>= f) = .error e := rfl

theorem exceptBind_ok {α β : Type} (x : Except Err α) (f : α → Except Err β)
    (b : β) (h : (x >>= f) = .ok b) : ∃ a, x = .ok a ∧ f a = .ok b := by
  cases x with
  | error e => rw [bindErr] at h; cases h
  | ok a => exact ⟨a, rfl, by rwa [bindOk] at h⟩

/-- Inserting a resource whose `kind` is absent or falsy anywhere in the
resource list leaves the kind index untouched. -/
theorem indexByKindAux_skip (xs : List Json) (ys : List Json)
    (d : List (String × Json))
    (hk : (getDfltL d "kind" .null).truthy = false) :
    ∀ d0, indexByKindAux d0 (xs ++ .obj d :: ys)
      = indexByKindAux d0 (xs ++ ys) := by
  induction xs with
  | nil =>
      intro d0
      rw [List.nil_append, List.nil_append, indexByKindAux]
      have hpk : pyGetNull (.obj d) "kind"
        = .ok (getDfltL d "kind" .null) := rfl
      rw [hpk]
      dsimp only
      rw [if_neg (by rw [hk]; simp)]
  | cons r rs ih =>
      intro d0
      rw [List.cons_append, List.cons_append, indexByKindAux, indexByKindAux]
      cases hpk : pyGetNull r "kind" with
      | error e => rfl
      | ok k =>
          dsimp only
          by_cases ht : k.truthy
          · rw [if_pos ht, if_pos ht]
            cases k with
            | arr l => rfl
            | obj l => rfl
            | null => exact ih _
            | bool b => exact ih _
            | num n => exact ih _
            | str s => exact ih _
          · rw [if_neg ht, if_neg ht]
            exact ih d0

/-- C10: resource mappings whose `kind` key is absent or falsy are
silently dropped by the diff's indexing step, on both the live and the
local side: removing such an entry from either input's resource list does
not change the diff outcome at all, so such entries never produce any
diff entry and are never compared. -/
theorem c10_falsy_kind_dropped (live₁ live₂ localCfg : Json)
    (xs ys : List Json) (d : List (String × Json))
    (h1 : getResources live₁ = .ok (xs ++ .obj d :: ys))
    (h2 : getResources live₂ = .ok (xs ++ ys))
    (hk : (getDfltL d "kind" .null).truthy = false) :
    _compare_configs live₁ localCfg = _compare_configs live₂ localCfg
    ∧ _compare_configs localCfg live₁ = _compare_configs localCfg live₂ := by
  have hidx : indexByKind (xs ++ .obj d :: ys) = indexByKind (xs ++ ys) :=
    indexByKindAux_skip xs ys d hk []
  constructor
  · unfold _compare_configs
    rw [h1, h2, bindOk, bindOk, hidx]
  · unfold _compare_configs
    cases hlr : getResources localCfg with
    | error e => rw [bindErr, bindErr]
    | ok ls =>
        rw [bindOk, bindOk, h1, h2, bindOk, bindOk, hidx]

/-- C10 witness: a kindless resource on the live side is invisible. -/
theorem c10_falsy_kind_dropped_witness :
    _compare_configs
      (.obj [("resources", .arr [.obj [("x", .num 1)],
        .obj [("kind", .str "a")]])]) (.obj [])
    = _compare_configs (.obj [("resources", .arr [.obj [("kind", .str "a")]])])
      (.obj [])
    ∧ _compare_configs (.obj [])
      (.obj [("resources", .arr [.obj [("x", .num 1)],
        .obj [("kind", .str "a")]])])
    = _compare_configs (.obj [])
      (.obj [("resources", .arr [.obj [("kind", .str "a")]])]) :=
  c10_falsy_kind_dropped
    (.obj [("resources", .arr [.obj [("x", .num 1)],
      .obj [("kind", .str "a")]])])
    (.obj [("resources", .arr [.obj [("kind", .str "a")]])])
    (.obj []) [] [.obj [("kind", .str "a")]] [("x", .num 1)] rfl rfl rfl

/-! ### Claim C7: the diff of a config with itself is empty -/

theorem mem_dedupAux {α : Type} [DecidableEq α] :
    ∀ (l seen : List α) (a : α),
      a ∈ dedupAux seen l ↔ a ∈ l ∧ a ∉ seen := by
  intro l
  induction l with
  | nil => intro seen a; simp [dedupAux]
  | cons x xs ih =>
      intro seen a
      rw [dedupAux]
      by_cases hx : x ∈ seen
      · rw [if_pos hx, ih]
        constructor
        · rintro ⟨h1, h2⟩
          exact ⟨List.mem_cons_of_mem x h1, h2⟩
        · rintro ⟨h1, h2⟩
          rcases List.mem_cons.mp h1 with h | h
          · subst h; exact absurd hx h2
          · exact ⟨h, h2⟩
      · rw [if_neg hx]
        rw [List.mem_cons, ih]
        constructor
        · rintro (h | ⟨h1, h2⟩)
          · subst h; exact ⟨List.mem_cons_self a xs, hx⟩
          · refine ⟨List.mem_cons_of_mem x h1, fun hc => h2 ?_⟩
            exact List.mem_cons_of_mem x hc
        · rintro ⟨h1, h2⟩
          by_cases hax : a = x
          · exact Or.inl hax
          · rcases List.mem_cons.mp h1 with h | h
            · exact absurd h hax
            · refine Or.inr ⟨h, fun hc => ?_⟩
              rcases List.mem_cons.mp hc with h' | h'
              · exact hax h'
              · exact h2 h'

theorem mem_dedup {α : Type} [DecidableEq α] (l : List α) (a : α) :
    a ∈ dedup l ↔ a ∈ l := by
  rw [dedup, mem_dedupAux]
  simp

theorem nodup_dedupAux {α : Type} [DecidableEq α] :
    ∀ (l seen : List α), (dedupAux seen l).Nodup := by
  intro l
  induction l with
  | nil => intro seen; simp [dedupAux]
  | cons x xs ih =>
      intro seen
      rw [dedupAux]
      by_cases hx : x ∈ seen
      · rw [if_pos hx]; exact ih seen
      · rw [if_neg hx]
        refine List.nodup_cons.mpr ⟨fun hc => ?_, ih (x :: seen)⟩
        exact ((mem_dedupAux xs (x :: seen) x).mp hc).2 (List.mem_cons_self x seen)

theorem nodup_dedup {α : Type} [DecidableEq α] (l : List α) :
    (dedup l).Nodup := nodup_dedupAux l []

theorem insertPy_perm (x : Json) :
    ∀ (l out : List Json), insertPy x l = .ok out → out.Perm (x :: l) := by
  intro l
  induction l with
  | nil =>
      intro out h
      rw [insertPy] at h
      cases h
      exact List.Perm.refl _
  | cons y ys ih =>
      intro out h
      rw [insertPy] at h
      cases hb : pyLt x y with
      | error e => rw [hb, bindErr] at h; cases h
      | ok b =>
          rw [hb, bindOk] at h
          cases b with
          | true =>
              rw [if_pos rfl] at h
              cases h
              exact List.Perm.refl _
          | false =>
              rw [if_neg (by simp)] at h
              cases hr : insertPy x ys with
              | error e => rw [hr, bindErr] at h; cases h
              | ok rest =>
                  rw [hr, bindOk] at h
                  cases h
                  exact ((ih rest hr).cons y).trans (List.Perm.swap x y ys)

theorem sortKeysPy_perm :
    ∀ (l out : List Json), sortKeysPy l = .ok out → out.Perm l := by
  intro l
  induction l with
  | nil => intro out h; cases h; exact List.Perm.refl _
  | cons x xs ih =>
      intro out h
      rw [sortKeysPy] at h
      cases hs : sortKeysPy xs with
      | error e => rw [hs, bindErr] at h; cases h
      | ok s =>
          rw [hs, bindOk] at h
          exact (insertPy_perm x s out h).trans ((ih s hs).cons x)

theorem lookupK_mem (I : List (Json × Json)) (k v : Json)
    (h : lookupK I k = some v) : (k, v) ∈ I := by
  induction I with
  | nil => cases h
  | cons p t ih =>
      rcases p with ⟨k₀, v₀⟩
      rw [lookupK] at h
      by_cases h0 : k₀ = k
      · rw [if_pos h0] at h
        cases h
        rw [h0]
        exact List.mem_cons_self _ _
      · rw [if_neg h0] at h
        exact List.mem_cons_of_mem _ (ih h)

theorem lookupK_isSome_of_mem_keys (I : List (Json × Json)) (k : Json)
    (h : k ∈ I.map (·.1)) : (lookupK I k).isSome := by
  induction I with
  | nil => simp at h
  | cons p t ih =>
      rcases p with ⟨k₀, v₀⟩
      rw [lookupK]
      by_cases h0 : k₀ = k
      · rw [if_pos h0]; rfl
      · rw [if_neg h0]
        apply ih
        rw [List.map_cons] at h
        rcases List.mem_cons.mp h with h' | h'
        · exact absurd h'.symm h0
        · exact h'

theorem insertK_values (d : List (Json × Json)) (k v : Json)
    (P : Json → Prop) (hd : ∀ p ∈ d, P p.2) (hv : P v) :
    ∀ p ∈ insertK d k v, P p.2 := by
  intro p hp
  unfold insertK at hp
  split at hp
  · obtain ⟨q, hq, he⟩ := List.mem_map.mp hp
    by_cases h0 : q.1 = k
    · rw [if_pos h0] at he
      rw [← he]
      exact hv
    · rw [if_neg h0] at he
      rw [← he]
      exact hd q hq
  · rcases List.mem_append.mp hp with h | h
    · exact hd p h
    · rw [List.mem_singleton.mp h]
      exact hv

theorem pyGetNull_kind_truthy (r k : Json)
    (h : pyGetNull r "kind" = .ok k) (ht : k.truthy) : r.truthy := by
  cases r with
  | obj d =>
      cases d with
      | nil =>
          have : k = .null := by
            have := h
            unfold pyGetNull pyGetDflt getDfltL lookupL at this
            cases this
            rfl
          rw [this] at ht
          cases ht
      | cons p t => rfl
  | null => cases h
  | bool b => cases h
  | num n => cases h
  | str s => cases h
  | arr l => cases h

theorem indexByKindAux_truthy :
    ∀ (rs : List Json) (d I : List (Json × Json)),
      (∀ p ∈ d, p.2.truthy) → indexByKindAux d rs = .ok I →
      ∀ p ∈ I, p.2.truthy := by
  intro rs
  induction rs with
  | nil =>
      intro d I hd h
      cases h
      exact hd
  | cons r rs ih =>
      intro d I hd h
      rw [indexByKindAux] at h
      cases hpk : pyGetNull r "kind" with
      | error e => rw [hpk] at h; cases h
      | ok k =>
          rw [hpk] at h
          dsimp only at h
          by_cases ht : k.truthy
          · rw [if_pos ht] at h
            cases k with
            | arr l => cases h
            | obj l => cases h
            | null => cases ht
            | bool b =>
                exact ih _ I (insertK_values d _ r
                  (fun j => j.truthy = true) hd
                  (pyGetNull_kind_truthy r _ hpk ht)) h
            | num n =>
                exact ih _ I (insertK_values d _ r
                  (fun j => j.truthy = true) hd
                  (pyGetNull_kind_truthy r _ hpk ht)) h
            | str s =>
                exact ih _ I (insertK_values d _ r
                  (fun j => j.truthy = true) hd
                  (pyGetNull_kind_truthy r _ hpk ht)) h
          · rw [if_neg ht] at h
            exact ih d I hd h

theorem pureBind {α β : Type} (a : α) (f : α → Except Err β) :
    ((pure a : Except Err α) >>= f) = f a := rfl

theorem comparePairs_self (k : Json) (D : List (String × Json))
    (mkMissing mkExtra : Json → String → DiffEntry)
    (mkDiff : Json → String → Json → Json → DiffEntry) :
    comparePairs k D D mkMissing mkExtra mkDiff = [] := by
  unfold comparePairs
  have h1 : (keysOf D).filter (fun k' => !(keysOf D).contains k') = [] := by
    rw [List.filter_eq_nil_iff]
    intro a ha
    simp [ha]
  have h2 : ((keysOf D).filter (fun k' => (keysOf D).contains k')).filterMap
      (fun k' =>
        match lookupL D k', lookupL D k' with
        | some lv, some vv =>
            if lv ≠ vv then some (mkDiff k k' vv lv) else none
        | _, _ => none) = [] := by
    rw [List.filterMap_eq_nil_iff]
    intro a ha
    cases hl : lookupL D a with
    | none => rfl
    | some v => simp
  dsimp only
  rw [h1, h2]
  simp

theorem compareFields_self (k m : Json) (b : List DiffEntry)
    (h : _compare_mapping_fields k m m = .ok b) : b = [] := by
  unfold _compare_mapping_fields at h
  dsimp only at h
  cases h1 : pyGetNull m "identifier" with
  | error e => rw [h1, bindErr, bindErr] at h; cases h
  | ok v1 =>
      rw [h1, bindOk, bindOk, if_neg (by simp), pureBind] at h
      cases h2 : pyGetNull m "title" with
      | error e => rw [h2, bindErr, bindErr] at h; cases h
      | ok v2 =>
          rw [h2, bindOk, bindOk, if_neg (by simp), pureBind] at h
          cases h3 : pyGetNull m "blueprint" with
          | error e => rw [h3, bindErr, bindErr] at h; cases h
          | ok v3 =>
              rw [h3, bindOk, bindOk, if_neg (by simp), pureBind] at h
              cases h
              rfl

theorem compareProps_self (k m : Json) (b : List DiffEntry)
    (h : _compare_properties k m m = .ok b) : b = [] := by
  unfold _compare_properties at h
  cases hs : mapSection m "properties" with
  | error e => rw [hs, bindErr] at h; cases h
  | ok D =>
      rw [hs, bindOk, bindOk] at h
      cases h
      exact comparePairs_self k D _ _ _

theorem compareRels_self (k m : Json) (b : List DiffEntry)
    (h : _compare_relations k m m = .ok b) : b = [] := by
  unfold _compare_relations at h
  cases hs : mapSection m "relations" with
  | error e => rw [hs, bindErr] at h; cases h
  | ok D =>
      rw [hs, bindOk, bindOk] at h
      cases h
      exact comparePairs_self k D _ _ _

theorem compareKind_self (I : List (Json × Json)) (k : Json)
    (b : List DiffEntry) (htv : ∀ p ∈ I, p.2.truthy)
    (hk : k ∈ I.map (·.1)) (h : compareKind I I k = .ok b) : b = [] := by
  unfold compareKind at h
  have hsome := lookupK_isSome_of_mem_keys I k hk
  cases hl : lookupK I k with
  | none => rw [hl] at hsome; cases hsome
  | some r =>
      rw [hl] at h
      have hrt : r.truthy := htv (k, r) (lookupK_mem I k r hl)
      rw [if_neg (by simp [hrt]), if_neg (by simp [hrt])] at h
      rw [Option.getD_some] at h
      cases hm : get_mappings r with
      | error e => rw [hm, bindErr] at h; cases h
      | ok mp =>
          rw [hm, bindOk, bindOk] at h
          cases hf : _compare_mapping_fields k mp mp with
          | error e => rw [hf, bindErr] at h; cases h
          | ok fb =>
              rw [hf, bindOk] at h
              cases hp : _compare_properties k mp mp with
              | error e => rw [hp, bindErr] at h; cases h
              | ok pb =>
                  rw [hp, bindOk] at h
                  cases hr : _compare_relations k mp mp with
                  | error e => rw [hr, bindErr] at h; cases h
                  | ok rb =>
                      rw [hr, bindOk] at h
                      cases h
                      rw [compareFields_self k mp fb hf,
                        compareProps_self k mp pb hp,
                        compareRels_self k mp rb hr]
                      rfl

theorem compareKinds_self :
    ∀ (ks : List Json) (I : List (Json × Json)) (l : List DiffEntry),
      (∀ p ∈ I, p.2.truthy) → (∀ k ∈ ks, k ∈ I.map (·.1)) →
      compareKinds I I ks = .ok l → l = [] := by
  intro ks
  induction ks with
  | nil =>
      intro I l htv hks h
      cases h
      rfl
  | cons k ks ih =>
      intro I l htv hks h
      rw [compareKinds] at h
      cases hb : compareKind I I k with
      | error e => rw [hb, bindErr] at h; cases h
      | ok b =>
          rw [hb, bindOk] at h
          cases hrest : compareKinds I I ks with
          | error e => rw [hrest, bindErr] at h; cases h
          | ok rest =>
              rw [hrest, bindOk] at h
              cases h
              rw [compareKind_self I k b htv (hks k (List.mem_cons_self k ks)) hb,
                ih I rest htv (fun k' hk' => hks k' (List.mem_cons_of_mem k hk'))
                  hrest]
              rfl

/-- C7: for every config `X` accepted by the diff engine, comparing `X`
against itself produces the empty sequence — no missing or extra kinds,
no field differences, and no property or relation differences. -/
theorem c7_diff_self_empty (X : Json) (l : List DiffEntry)
    (h : _compare_configs X X = .ok l) : l = [] := by
  unfold _compare_configs at h
  obtain ⟨rs, hrs, h⟩ := exceptBind_ok _ _ _ h
  obtain ⟨rs', hrs', h⟩ := exceptBind_ok _ _ _ h
  rw [hrs] at hrs'
  obtain rfl : rs = rs' := Except.ok.inj hrs'
  obtain ⟨I, hI, h⟩ := exceptBind_ok _ _ _ h
  obtain ⟨I', hI', h⟩ := exceptBind_ok _ _ _ h
  rw [hI] at hI'
  obtain rfl : I = I' := Except.ok.inj hI'
  obtain ⟨ks, hks, h⟩ := exceptBind_ok _ _ _ h
  have htv : ∀ p ∈ I, p.2.truthy :=
    indexByKindAux_truthy rs [] I (by intro p hp; cases hp) hI
  have hmem : ∀ k ∈ ks, k ∈ I.map (·.1) := by
    intro k hkk
    have hperm := sortKeysPy_perm _ _ hks
    have hd : k ∈ dedup (I.map (·.1) ++ I.map (·.1)) := hperm.mem_iff.mp hkk
    rcases List.mem_append.mp ((mem_dedup _ _).mp hd) with h' | h' <;> exact h'
  exact compareKinds_self ks I l htv hmem h

/-- C7 witness at a concrete well-formed config. -/
theorem c7_diff_self_empty_witness :
    _compare_configs
      (.obj [("resources", .arr [.obj [("kind", .str "b"),
        ("port", .obj [("entity", .obj [("mappings", .obj
          [("identifier", .str "i"),
           ("properties", .obj [("p", .str "e")])])])])]])])
      (.obj [("resources", .arr [.obj [("kind", .str "b"),
        ("port", .obj [("entity", .obj [("mappings", .obj
          [("identifier", .str "i"),
           ("properties", .obj [("p", .str "e")])])])])]])])
      = .ok []
    ∧ ([] : List DiffEntry) = [] :=
  ⟨rfl, c7_diff_self_empty
    (.obj [("resources", .arr [.obj [("kind", .str "b"),
      ("port", .obj [("entity", .obj [("mappings", .obj
        [("identifier", .str "i"),
         ("properties", .obj [("p", .str "e")])])])])]])]) [] rfl⟩

/-! ### Claim C5: ordering of the emitted diff entries -/

theorem lexNat_asymm : ∀ a b, lexNat a b = true → lexNat b a = false := by
  intro a
  induction a with
  | nil =>
      intro b h
      cases b with
      | nil => cases h
      | cons y ys => rfl
  | cons x xs ih =>
      intro b h
      cases b with
      | nil => cases h
      | cons y ys =>
          rw [lexNat] at h ⊢
          by_cases h1 : x < y
          · rw [if_neg (by omega : ¬ y < x), if_neg (by omega : ¬ y = x)]
          · rw [if_neg h1] at h
            by_cases h2 : x = y
            · rw [if_pos h2] at h
              rw [if_neg (by omega : ¬ y < x), if_pos h2.symm]
              exact ih ys h
            · rw [if_neg h2] at h
              cases h

theorem lexNat_neg_trans :
    ∀ a b c, lexNat b a = false → lexNat c b = false → lexNat c a = false := by
  intro a
  induction a with
  | nil =>
      intro b c h1 h2
      cases c with
      | nil => rfl
      | cons z zs => rfl
  | cons x xs ih =>
      intro b c h1 h2
      cases b with
      | nil => cases h1
      | cons y ys =>
          cases c with
          | nil => cases h2
          | cons z zs =>
              rw [lexNat] at h1 h2 ⊢
              by_cases hyx : y < x
              · rw [if_pos hyx] at h1; cases h1
              · rw [if_neg hyx] at h1
                by_cases hzy : z < y
                · rw [if_pos hzy] at h2; cases h2
                · rw [if_neg hzy] at h2
                  by_cases hzx : z < x
                  · omega
                  · rw [if_neg hzx]
                    by_cases hzxe : z = x
                    · rw [if_pos hzxe]
                      have hyxe : y = x := by omega
                      have hzye : z = y := by omega
                      rw [if_pos hyxe] at h1
                      rw [if_pos hzye] at h2
                      exact ih ys zs h1 h2
                    · rw [if_neg hzxe]

theorem strLtPy_asymm (x y : String) (h : strLtPy x y = true) :
    strLtPy y x = false := lexNat_asymm _ _ h

theorem strLtPy_neg_trans (x y z : String) (h1 : strLtPy y x = false)
    (h2 : strLtPy z y = false) : strLtPy z x = false :=
  lexNat_neg_trans _ _ _ h1 h2

theorem pyLt_ok (x y : Json) (b : Bool) (h : pyLt x y = .ok b) :
    ∃ sx sy, x = .str sx ∧ y = .str sy ∧ b = strLtPy sx sy := by
  cases x <;> cases y <;> first
  | exact ⟨_, _, rfl, rfl, (Except.ok.inj h).symm⟩
  | cases h

/-- The (non-strict) order in which kinds appear in the diff output:
equal, or both strings with the first not greater in Python's
lexicographic string order. -/
def kindLe (a b : Json) : Prop :=
  a = b ∨ ∃ x y, a = .str x ∧ b = .str y ∧ strLtPy y x = false

/-- The strict-string part of `kindLe`. -/
def strRel (a b : Json) : Prop :=
  ∃ x y, a = .str x ∧ b = .str y ∧ strLtPy y x = false

theorem insertPy_sorted (x : Json) :
    ∀ (s out : List Json), (∀ z ∈ s, z.isStr) → s.Pairwise strRel →
      x.isStr → insertPy x s = .ok out →
      out.Pairwise strRel ∧ ∀ z ∈ out, z.isStr := by
  intro s
  induction s with
  | nil =>
      intro out hall hpw hx h
      cases h
      refine ⟨List.pairwise_singleton _ _, ?_⟩
      intro z hz
      rw [List.mem_singleton.mp hz]
      exact hx
  | cons y ys ih =>
      intro out hall hpw hx h
      rw [insertPy] at h
      cases hb : pyLt x y with
      | error e => rw [hb, bindErr] at h; cases h
      | ok b =>
          rw [hb, bindOk] at h
          obtain ⟨sx, sy, hxs, hys, hbv⟩ := pyLt_ok x y b hb
          have hyz : ∀ z ∈ ys, strRel y z := (List.pairwise_cons.mp hpw).1
          cases b with
          | true =>
              rw [if_pos rfl] at h
              cases h
              have hxy : strRel x y :=
                ⟨sx, sy, hxs, hys, strLtPy_asymm sx sy hbv.symm⟩
              refine ⟨List.pairwise_cons.mpr ⟨?_, hpw⟩, ?_⟩
              · intro z hz
                rcases List.mem_cons.mp hz with h' | h'
                · rw [h']; exact hxy
                · obtain ⟨sy', sz, hys', hzs, hzy⟩ := hyz z h'
                  rw [hys'] at hys
                  have : sy' = sy := Json.str.inj hys.symm ▸ rfl
                  refine ⟨sx, sz, hxs, hzs, ?_⟩
                  rw [this] at hzy
                  exact strLtPy_neg_trans sx sy sz
                    (strLtPy_asymm sx sy hbv.symm) hzy
              · intro z hz
                rcases List.mem_cons.mp hz with h' | h'
                · rw [h']; exact hx
                · exact hall z h'
          | false =>
              rw [if_neg (by simp)] at h
              cases hr : insertPy x ys with
              | error e => rw [hr, bindErr] at h; cases h
              | ok rest =>
                  rw [hr, bindOk] at h
                  cases h
                  have hys' : ∀ z ∈ ys, z.isStr :=
                    fun z hz => hall z (List.mem_cons_of_mem y hz)
                  obtain ⟨hpwr, hstrr⟩ :=
                    ih rest hys' (List.pairwise_cons.mp hpw).2 hx hr
                  have hperm := insertPy_perm x ys rest hr
                  refine ⟨List.pairwise_cons.mpr ⟨?_, hpwr⟩, ?_⟩
                  · intro z hz
                    rcases List.mem_cons.mp (hperm.mem_iff.mp hz) with h' | h'
                    · rw [h']
                      exact ⟨sy, sx, hys, hxs, hbv.symm⟩
                    · exact hyz z h'
                  · intro z hz
                    rcases List.mem_cons.mp hz with h' | h'
                    · rw [h']; exact hall y (List.mem_cons_self y ys)
                    · exact hstrr z h'

theorem sortKeysPy_sorted :
    ∀ (l out : List Json), sortKeysPy l = .ok out →
      out.Pairwise strRel ∧ (2 ≤ out.length → ∀ z ∈ out, z.isStr) := by
  intro l
  induction l with
  | nil =>
      intro out h
      cases h
      exact ⟨List.Pairwise.nil, fun h2 => absurd h2 (by decide)⟩
  | cons x xs ih =>
      intro out h
      rw [sortKeysPy] at h
      cases hs : sortKeysPy xs with
      | error e => rw [hs, bindErr] at h; cases h
      | ok s =>
          rw [hs, bindOk] at h
          obtain ⟨hpw, hstr⟩ := ih s hs
          cases s with
          | nil =>
              cases h
              refine ⟨List.pairwise_singleton _ _, fun h2 => by simp at h2⟩
          | cons y ys =>
              have hxy : ∃ b, pyLt x y = .ok b := by
                rw [insertPy] at h
                cases hb : pyLt x y with
                | error e => rw [hb, bindErr] at h; cases h
                | ok b => exact ⟨b, rfl⟩
              obtain ⟨b, hb⟩ := hxy
              obtain ⟨sx, sy, hxs, hys, hbv⟩ := pyLt_ok x y b hb
              have hall : ∀ z ∈ y :: ys, z.isStr := by
                cases ys with
                | nil =>
                    intro z hz
                    rw [List.mem_singleton.mp hz, hys]
                    rfl
                | cons w ws =>
                    exact hstr (by simp)
              have hres := insertPy_sorted x (y :: ys) out hall hpw
                (by rw [hxs]; rfl) h
              exact ⟨hres.1, fun _ => hres.2⟩

theorem comparePairs_kind (k : Json) (D1 D2 : List (String × Json))
    (mm me : Json → String → DiffEntry)
    (md : Json → String → Json → Json → DiffEntry)
    (hm : ∀ key, (mm k key).kindOf = k) (he : ∀ key, (me k key).kindOf = k)
    (hd : ∀ key a b, (md k key a b).kindOf = k) :
    ∀ e ∈ comparePairs k D1 D2 mm me md, e.kindOf = k := by
  intro e hmem
  unfold comparePairs at hmem
  dsimp only at hmem
  rcases List.mem_append.mp hmem with h | h
  · rcases List.mem_append.mp h with h' | h'
    · obtain ⟨key, _, hkey⟩ := List.mem_map.mp h'
      rw [← hkey]
      exact hm key
    · obtain ⟨key, _, hkey⟩ := List.mem_map.mp h'
      rw [← hkey]
      exact he key
  · obtain ⟨a, _, hfa⟩ := List.mem_filterMap.mp h
    cases hl1 : lookupL D1 a with
    | none => rw [hl1] at hfa; cases hl2 : lookupL D2 a <;> rw [hl2] at hfa <;>
        cases hfa
    | some lv =>
        cases hl2 : lookupL D2 a with
        | none => rw [hl1, hl2] at hfa; cases hfa
        | some vv =>
            rw [hl1, hl2] at hfa
            dsimp only at hfa
            split at hfa
            · cases hfa
              exact hd a vv lv
            · cases hfa

theorem compareFields_kind (k m1 m2 : Json) (f : List DiffEntry)
    (h : _compare_mapping_fields k m1 m2 = .ok f) :
    ∀ e ∈ f, e.kindOf = k := by
  unfold _compare_mapping_fields at h
  dsimp only at h
  obtain ⟨a, ha, h⟩ := exceptBind_ok _ _ _ h
  obtain ⟨b, hb, h⟩ := exceptBind_ok _ _ _ h
  obtain ⟨c, hc, h⟩ := exceptBind_ok _ _ _ h
  cases h
  have hone : ∀ (field : String) (x : List DiffEntry),
      (do
        let lv ← pyGetNull m1 field
        let vv ← pyGetNull m2 field
        if lv ≠ vv then pure [DiffEntry.fieldDiff k field vv lv]
        else pure ([] : List DiffEntry)) = .ok x →
      ∀ e ∈ x, e.kindOf = k := by
    intro field x hx e hex
    obtain ⟨lv, _, hx⟩ := exceptBind_ok _ _ _ hx
    obtain ⟨vv, _, hx⟩ := exceptBind_ok _ _ _ hx
    split at hx
    · cases hx
      rw [List.mem_singleton.mp hex]
      rfl
    · cases hx
      cases hex
  intro e hmem
  rcases List.mem_append.mp hmem with h' | h'
  · rcases List.mem_append.mp h' with h'' | h''
    · exact hone "identifier" a ha e h''
    · exact hone "title" b hb e h''
  · exact hone "blueprint" c hc e h'

theorem compareProps_kind (k m1 m2 : Json) (p : List DiffEntry)
    (h : _compare_properties k m1 m2 = .ok p) :
    ∀ e ∈ p, e.kindOf = k := by
  unfold _compare_properties at h
  obtain ⟨D1, _, h⟩ := exceptBind_ok _ _ _ h
  obtain ⟨D2, _, h⟩ := exceptBind_ok _ _ _ h
  cases h
  exact comparePairs_kind k D1 D2 _ _ _ (fun _ => rfl) (fun _ => rfl)
    (fun _ _ _ => rfl)

theorem compareRels_kind (k m1 m2 : Json) (p : List DiffEntry)
    (h : _compare_relations k m1 m2 = .ok p) :
    ∀ e ∈ p, e.kindOf = k := by
  unfold _compare_relations at h
  obtain ⟨D1, _, h⟩ := exceptBind_ok _ _ _ h
  obtain ⟨D2, _, h⟩ := exceptBind_ok _ _ _ h
  cases h
  exact comparePairs_kind k D1 D2 _ _ _ (fun _ => rfl) (fun _ => rfl)
    (fun _ _ _ => rfl)

theorem compareKind_kind (L1 L2 : List (Json × Json)) (k : Json)
    (b : List DiffEntry) (h : compareKind L1 L2 k = .ok b) :
    ∀ e ∈ b, e.kindOf = k := by
  unfold compareKind at h
  dsimp only at h
  split at h
  · cases h
    intro e hmem
    rw [List.mem_singleton.mp hmem]
    rfl
  · split at h
    · cases h
      intro e hmem
      rw [List.mem_singleton.mp hmem]
      rfl
    · obtain ⟨lm, _, h⟩ := exceptBind_ok _ _ _ h
      obtain ⟨vm, _, h⟩ := exceptBind_ok _ _ _ h
      obtain ⟨f, hf, h⟩ := exceptBind_ok _ _ _ h
      obtain ⟨p, hp, h⟩ := exceptBind_ok _ _ _ h
      obtain ⟨r, hr, h⟩ := exceptBind_ok _ _ _ h
      cases h
      intro e hmem
      rcases List.mem_append.mp hmem with h' | h'
      · rcases List.mem_append.mp h' with h'' | h''
        · exact compareFields_kind k lm vm f hf e h''
        · exact compareProps_kind k lm vm p hp e h''
      · exact compareRels_kind k lm vm r hr e h'

theorem block_pairwise (k : Json) (b : List DiffEntry)
    (hk : ∀ e ∈ b, e.kindOf = k) :
    b.Pairwise (fun e₁ e₂ => kindLe e₁.kindOf e₂.kindOf) := by
  induction b with
  | nil => exact List.Pairwise.nil
  | cons e t ih =>
      refine List.pairwise_cons.mpr ⟨?_, ih (fun e' he' =>
        hk e' (List.mem_cons_of_mem e he'))⟩
      intro e' he'
      left
      rw [hk e (List.mem_cons_self e t),
        hk e' (List.mem_cons_of_mem e he')]

theorem compareKinds_mem_kind (L1 L2 : List (Json × Json)) :
    ∀ (ks : List Json) (l : List DiffEntry),
      compareKinds L1 L2 ks = .ok l →
      ∀ e ∈ l, ∃ k ∈ ks, e.kindOf = k := by
  intro ks
  induction ks with
  | nil =>
      intro l h e hmem
      cases h
      cases hmem
  | cons k ks ih =>
      intro l h e hmem
      rw [compareKinds] at h
      obtain ⟨b, hb, h⟩ := exceptBind_ok _ _ _ h
      obtain ⟨rest, hrest, h⟩ := exceptBind_ok _ _ _ h
      cases h
      rcases List.mem_append.mp hmem with h' | h'
      · exact ⟨k, List.mem_cons_self k ks, compareKind_kind L1 L2 k b hb e h'⟩
      · obtain ⟨k', hk', hke⟩ := ih rest hrest e h'
        exact ⟨k', List.mem_cons_of_mem k hk', hke⟩

theorem compareKinds_pairwise (L1 L2 : List (Json × Json)) :
    ∀ (ks : List Json) (l : List DiffEntry), ks.Pairwise strRel →
      compareKinds L1 L2 ks = .ok l →
      l.Pairwise (fun e₁ e₂ => kindLe e₁.kindOf e₂.kindOf) := by
  intro ks
  induction ks with
  | nil =>
      intro l _ h
      cases h
      exact List.Pairwise.nil
  | cons k ks ih =>
      intro l hks h
      rw [compareKinds] at h
      obtain ⟨b, hb, h⟩ := exceptBind_ok _ _ _ h
      obtain ⟨rest, hrest, h⟩ := exceptBind_ok _ _ _ h
      cases h
      refine List.pairwise_append.mpr
        ⟨block_pairwise k b (compareKind_kind L1 L2 k b hb),
         ih rest (List.pairwise_cons.mp hks).2 hrest, ?_⟩
      intro e1 he1 e2 he2
      obtain ⟨k', hk', hke2⟩ := compareKinds_mem_kind L1 L2 ks rest hrest e2 he2
      rw [compareKind_kind L1 L2 k b hb e1 he1, hke2]
      exact Or.inr ((List.pairwise_cons.mp hks).1 k' hk')

/-- C5 counterexample: within a kind, field-difference entries are emitted
in the source's fixed order `identifier`, `title`, `blueprint`, not
lexicographically by field name — here the entry for `identifier` precedes
the entry for `blueprint` although `"blueprint"` sorts before
`"identifier"` in Python's lexicographic string order. -/
theorem c5_counterexample :
    _compare_configs
      (.obj [("resources", .arr [.obj [("kind", .str "k"),
        ("port", .obj [("entity", .obj [("mappings", .obj
          [("identifier", .str "a"), ("title", .str "t"),
           ("blueprint", .str "b1")])])])]])])
      (.obj [("resources", .arr [.obj [("kind", .str "k"),
        ("port", .obj [("entity", .obj [("mappings", .obj
          [("identifier", .str "a2"), ("title", .str "t"),
           ("blueprint", .str "b2")])])])]])])
    = .ok [.fieldDiff (.str "k") "identifier" (.str "a") (.str "a2"),
           .fieldDiff (.str "k") "blueprint" (.str "b1") (.str "b2")]
    ∧ strLtPy "blueprint" "identifier" = true := ⟨rfl, rfl⟩

/-- C5 (amended): the diff is a deterministic function of its inputs and
emits its entries grouped by kind in lexicographically nondecreasing kind
order; within one kind the order is the source's fixed order (the
`identifier`, `title`, `blueprint` field diffs, then property entries,
then relation entries), not lexicographic by field or key name. -/
theorem c5_entries_kind_sorted (A B : Json) (l : List DiffEntry)
    (h : _compare_configs A B = .ok l) :
    l.Pairwise (fun e₁ e₂ => kindLe e₁.kindOf e₂.kindOf) := by
  unfold _compare_configs at h
  obtain ⟨ra, hra, h⟩ := exceptBind_ok _ _ _ h
  obtain ⟨rb, hrb, h⟩ := exceptBind_ok _ _ _ h
  obtain ⟨IA, hIA, h⟩ := exceptBind_ok _ _ _ h
  obtain ⟨IB, hIB, h⟩ := exceptBind_ok _ _ _ h
  obtain ⟨ks, hks, h⟩ := exceptBind_ok _ _ _ h
  exact compareKinds_pairwise IA IB ks l (sortKeysPy_sorted _ ks hks).1 h

/-- C5 witness: the kinds of the emitted entries are nondecreasing on a
concrete two-kind diff. -/
theorem c5_entries_kind_sorted_witness :
    List.Pairwise (fun e₁ e₂ => kindLe e₁.kindOf e₂.kindOf)
      [DiffEntry.missingInLive (.str "a"), DiffEntry.extraInLive (.str "c")] :=
  c5_entries_kind_sorted
    (.obj [("resources", .arr [.obj [("kind", .str "c")]])])
    (.obj [("resources", .arr [.obj [("kind", .str "a")]])])
    [DiffEntry.missingInLive (.str "a"), DiffEntry.extraInLive (.str "c")] rfl

/-! ### Claim C8: totality of the diff computation -/

/-- A section value (`properties` / `relations`) that the code accepts:
a dict, or anything falsy (treated as empty). -/
def wsSection (v : Json) : Bool := v.isObj || !v.truthy

/-- A resource entry that every stage of the per-kind comparison accepts:
a dict whose `kind` is a string or falsy, whose `port`/`entity`/`mappings`
chain consists of dicts (or absent, defaulting to `{}`), and whose
`properties` and `relations` are dicts or falsy. -/
def wellShapedResource (r : Json) : Bool :=
  match r with
  | .obj d =>
    (match getDfltL d "kind" .null with
     | .str _ => true
     | v => !v.truthy)
    &&
    (match getDfltL d "port" (.obj []) with
     | .obj dp =>
       (match getDfltL dp "entity" (.obj []) with
        | .obj de =>
          (match getDfltL de "mappings" (.obj []) with
           | .obj dm =>
             wsSection (getDfltL dm "properties" (.obj []))
             && wsSection (getDfltL dm "relations" (.obj []))
           | _ => false)
        | _ => false)
     | _ => false)
  | _ => false

/-- A config document the diff engine accepts: a dict whose `resources`
is absent, falsy, or a list of well-shaped resource entries. -/
def wellShapedCfg (cfg : Json) : Bool :=
  match cfg with
  | .obj d =>
    match getDfltL d "resources" .null with
    | .arr rs => rs.all wellShapedResource
    | v => !v.truthy
  | _ => false

theorem pyGetNull_obj (d : List (String × Json)) (f : String) :
    pyGetNull (.obj d) f = .ok (getDfltL d f .null) := rfl

theorem pyGetDflt_obj (d : List (String × Json)) (f : String) (dflt : Json) :
    pyGetDflt (.obj d) f dflt = .ok (getDfltL d f dflt) := rfl

theorem getResources_ok (c : Json) (h : wellShapedCfg c = true) :
    ∃ rs, getResources c = .ok rs ∧ ∀ r ∈ rs, wellShapedResource r := by
  cases c with
  | obj d =>
      unfold getResources
      rw [pyGetNull_obj, bindOk]
      unfold wellShapedCfg at h
      dsimp only at h
      cases hres : getDfltL d "resources" .null with
      | arr rs =>
          rw [hres] at h
          dsimp only at h
          by_cases ht : (Json.arr rs).truthy
          · rw [if_pos ht]
            exact ⟨rs, rfl, fun r hr => List.all_eq_true.mp h r hr⟩
          · rw [if_neg ht]
            exact ⟨[], rfl, fun r hr => absurd hr (List.not_mem_nil r)⟩
      | null =>
          rw [if_neg (by simp [Json.truthy])]
          exact ⟨[], rfl, fun r hr => absurd hr (List.not_mem_nil r)⟩
      | bool b =>
          rw [hres] at h
          dsimp only at h
          simp only [Json.truthy] at h
          cases b with
          | false =>
              rw [if_neg (by simp [Json.truthy])]
              exact ⟨[], rfl, fun r hr => absurd hr (List.not_mem_nil r)⟩
          | true => simp at h
      | num n =>
          rw [hres] at h
          dsimp only at h
          simp only [Json.truthy] at h
          have hn : n = 0 := by
            by_contra hc
            simp [hc] at h
          rw [if_neg (by simp [Json.truthy, hn])]
          exact ⟨[], rfl, fun r hr => absurd hr (List.not_mem_nil r)⟩
      | str s =>
          rw [hres] at h
          dsimp only at h
          simp only [Json.truthy] at h
          have hs : s = "" := by
            by_contra hc
            simp [hc] at h
          rw [if_neg (by simp [Json.truthy, hs])]
          exact ⟨[], rfl, fun r hr => absurd hr (List.not_mem_nil r)⟩
      | obj dd =>
          rw [hres] at h
          dsimp only at h
          simp only [Json.truthy] at h
          have hd : dd = [] := by
            cases dd with
            | nil => rfl
            | cons p t => simp at h
          rw [if_neg (by simp [Json.truthy, hd])]
          exact ⟨[], rfl, fun r hr => absurd hr (List.not_mem_nil r)⟩
  | null => cases h
  | bool b => cases h
  | num n => cases h
  | str s => cases h
  | arr l => cases h

theorem insertK_forall (d : List (Json × Json)) (k v : Json)
    (P : Json × Json → Prop) (hd : ∀ p ∈ d, P p) (hv : P (k, v)) :
    ∀ p ∈ insertK d k v, P p := by
  intro p hp
  unfold insertK at hp
  split at hp
  · obtain ⟨q, hq, he⟩ := List.mem_map.mp hp
    by_cases h0 : q.1 = k
    · rw [if_pos h0] at he
      rw [← he]
      exact hv
    · rw [if_neg h0] at he
      rw [← he]
      exact hd q hq
  · rcases List.mem_append.mp hp with h | h
    · exact hd p h
    · rw [List.mem_singleton.mp h]
      exact hv

theorem indexByKindAux_ok :
    ∀ (rs : List Json) (d : List (Json × Json)),
      (∀ r ∈ rs, wellShapedResource r) →
      (∀ p ∈ d, p.1.isStr ∧ wellShapedResource p.2) →
      ∃ I, indexByKindAux d rs = .ok I
        ∧ ∀ p ∈ I, p.1.isStr ∧ wellShapedResource p.2 := by
  intro rs
  induction rs with
  | nil =>
      intro d hrs hd
      exact ⟨d, rfl, hd⟩
  | cons r rs ih =>
      intro d hrs hd
      have hr : wellShapedResource r = true := hrs r (List.mem_cons_self r rs)
      have hrs' : ∀ r' ∈ rs, wellShapedResource r' :=
        fun r' h' => hrs r' (List.mem_cons_of_mem r h')
      cases r with
      | obj dr =>
          rw [indexByKindAux, pyGetNull_obj]
          dsimp only
          by_cases ht : (getDfltL dr "kind" .null).truthy
          · rw [if_pos ht]
            have hr2 := hr
            unfold wellShapedResource at hr2
            dsimp only at hr2
            have hkstr : (getDfltL dr "kind" .null).isStr = true := by
              cases hk : getDfltL dr "kind" .null with
              | str s => rfl
              | null => rw [hk] at ht; simp [Json.truthy] at ht
              | bool b =>
                  rw [hk] at ht hr2
                  dsimp only at hr2
                  simp [Json.truthy] at ht hr2
                  rw [ht] at hr2
                  simp at hr2
              | num n =>
                  rw [hk] at ht hr2
                  dsimp only at hr2
                  simp only [Json.truthy] at ht hr2
                  simp only [Bool.and_eq_true, Bool.not_eq_true'] at hr2
                  rw [hr2.1] at ht
                  cases ht
              | arr l =>
                  rw [hk] at ht hr2
                  dsimp only at hr2
                  simp only [Json.truthy] at ht hr2
                  simp only [Bool.and_eq_true, Bool.not_eq_true'] at hr2
                  rw [hr2.1] at ht
                  cases ht
              | obj l =>
                  rw [hk] at ht hr2
                  dsimp only at hr2
                  simp only [Json.truthy] at ht hr2
                  simp only [Bool.and_eq_true, Bool.not_eq_true'] at hr2
                  rw [hr2.1] at ht
                  cases ht
            cases hk : getDfltL dr "kind" .null with
            | str s =>
                dsimp only
                exact ih (insertK d (.str s) (.obj dr)) hrs'
                  (insertK_forall d (.str s) (.obj dr) _ hd ⟨rfl, hr⟩)
            | null => rw [hk] at hkstr; cases hkstr
            | bool b => rw [hk] at hkstr; cases hkstr
            | num n => rw [hk] at hkstr; cases hkstr
            | arr l => rw [hk] at hkstr; cases hkstr
            | obj l => rw [hk] at hkstr; cases hkstr
          · rw [if_neg ht]
            exact ih d hrs' hd
      | null => cases hr
      | bool b => cases hr
      | num n => cases hr
      | str s => cases hr
      | arr l => cases hr

theorem isStr_exists (x : Json) (hx : x.isStr = true) : ∃ s, x = .str s := by
  cases x <;> first | exact ⟨_, rfl⟩ | cases hx

theorem insertPy_ok :
    ∀ (s : List Json) (x : Json), x.isStr = true →
      (∀ z ∈ s, z.isStr = true) → ∃ out, insertPy x s = .ok out := by
  intro s
  induction s with
  | nil => intro x _ _; exact ⟨[x], rfl⟩
  | cons y ys ih =>
      intro x hx hall
      obtain ⟨sx, rfl⟩ := isStr_exists x hx
      obtain ⟨sy, hy⟩ := isStr_exists y (hall y (List.mem_cons_self y ys))
      subst hy
      rw [insertPy]
      have hlt : pyLt (.str sx) (.str sy) = .ok (strLtPy sx sy) := rfl
      rw [hlt, bindOk]
      cases hb : strLtPy sx sy with
      | true => exact ⟨_, by rw [if_pos rfl]⟩
      | false =>
          obtain ⟨rest, hr⟩ := ih (.str sx) hx
            (fun z hz => hall z (List.mem_cons_of_mem _ hz))
          exact ⟨.str sy :: rest, by rw [if_neg (by simp), hr, bindOk]⟩

theorem sortKeysPy_ok :
    ∀ (l : List Json), (∀ z ∈ l, z.isStr = true) →
      ∃ out, sortKeysPy l = .ok out := by
  intro l
  induction l with
  | nil => intro _; exact ⟨[], rfl⟩
  | cons x xs ih =>
      intro hall
      obtain ⟨s, hs⟩ := ih (fun z hz => hall z (List.mem_cons_of_mem _ hz))
      have hsall : ∀ z ∈ s, z.isStr = true := fun z hz =>
        hall z (List.mem_cons_of_mem _
          ((sortKeysPy_perm xs s hs).mem_iff.mp hz))
      obtain ⟨out, ho⟩ := insertPy_ok s x (hall x (List.mem_cons_self x xs))
        hsall
      exact ⟨out, by rw [sortKeysPy, hs, bindOk, ho]⟩

theorem get_mappings_ok (r : Json) (hr : wellShapedResource r = true) :
    ∃ dm, get_mappings r = .ok (.obj dm)
      ∧ wsSection (getDfltL dm "properties" (.obj [])) = true
      ∧ wsSection (getDfltL dm "relations" (.obj [])) = true := by
  cases r with
  | obj d =>
      unfold wellShapedResource at hr
      dsimp only at hr
      simp only [Bool.and_eq_true] at hr
      obtain ⟨_, hport⟩ := hr
      unfold get_mappings
      rw [pyGetDflt_obj, bindOk]
      cases hp : getDfltL d "port" (.obj []) with
      | obj dp =>
          rw [hp] at hport
          dsimp only at hport
          rw [pyGetDflt_obj, bindOk]
          cases he : getDfltL dp "entity" (.obj []) with
          | obj de =>
              rw [he] at hport
              dsimp only at hport
              rw [pyGetDflt_obj]
              cases hm : getDfltL de "mappings" (.obj []) with
              | obj dm =>
                  rw [hm] at hport
                  dsimp only at hport
                  simp only [Bool.and_eq_true] at hport
                  exact ⟨dm, rfl, hport.1, hport.2⟩
              | null => rw [hm] at hport; cases hport
              | bool b => rw [hm] at hport; cases hport
              | num n => rw [hm] at hport; cases hport
              | str s => rw [hm] at hport; cases hport
              | arr l => rw [hm] at hport; cases hport
          | null => rw [he] at hport; cases hport
          | bool b => rw [he] at hport; cases hport
          | num n => rw [he] at hport; cases hport
          | str s => rw [he] at hport; cases hport
          | arr l => rw [he] at hport; cases hport
      | null => rw [hp] at hport; cases hport
      | bool b => rw [hp] at hport; cases hport
      | num n => rw [hp] at hport; cases hport
      | str s => rw [hp] at hport; cases hport
      | arr l => rw [hp] at hport; cases hport
  | null => cases hr
  | bool b => cases hr
  | num n => cases hr
  | str s => cases hr
  | arr l => cases hr

theorem mapSection_ok (dm : List (String × Json)) (key : String)
    (h : wsSection (getDfltL dm key (.obj [])) = true) :
    ∃ D, mapSection (.obj dm) key = .ok D := by
  unfold mapSection
  rw [pyGetDflt_obj, bindOk]
  by_cases ht : (getDfltL dm key (.obj [])).truthy
  · rw [if_pos ht]
    unfold wsSection at h
    have hobj : (getDfltL dm key (.obj [])).isObj = true := by
      simp only [Bool.or_eq_true, Bool.not_eq_true'] at h
      rcases h with h | h
      · exact h
      · rw [h] at ht; cases ht
    cases hv : getDfltL dm key (.obj []) with
    | obj d' => exact ⟨d', rfl⟩
    | null => rw [hv] at hobj; cases hobj
    | bool b => rw [hv] at hobj; cases hobj
    | num n => rw [hv] at hobj; cases hobj
    | str s => rw [hv] at hobj; cases hobj
    | arr l => rw [hv] at hobj; cases hobj
  · rw [if_neg ht]
    exact ⟨[], rfl⟩

theorem compareFields_ok (k : Json) (d1 d2 : List (String × Json)) :
    ∃ f, _compare_mapping_fields k (.obj d1) (.obj d2) = .ok f := by
  unfold _compare_mapping_fields
  dsimp only
  simp only [pyGetNull_obj, bindOk]
  split <;> split <;> split <;> exact ⟨_, rfl⟩

theorem compareProps_ok (k : Json) (dmL dmV : List (String × Json))
    (hL : wsSection (getDfltL dmL "properties" (.obj [])) = true)
    (hV : wsSection (getDfltL dmV "properties" (.obj [])) = true) :
    ∃ p, _compare_properties k (.obj dmL) (.obj dmV) = .ok p := by
  unfold _compare_properties
  obtain ⟨DL, hDL⟩ := mapSection_ok dmL "properties" hL
  obtain ⟨DV, hDV⟩ := mapSection_ok dmV "properties" hV
  exact ⟨_, by rw [hDL, bindOk, hDV, bindOk]; rfl⟩

theorem compareRels_ok (k : Json) (dmL dmV : List (String × Json))
    (hL : wsSection (getDfltL dmL "relations" (.obj [])) = true)
    (hV : wsSection (getDfltL dmV "relations" (.obj [])) = true) :
    ∃ p, _compare_relations k (.obj dmL) (.obj dmV) = .ok p := by
  unfold _compare_relations
  obtain ⟨DL, hDL⟩ := mapSection_ok dmL "relations" hL
  obtain ⟨DV, hDV⟩ := mapSection_ok dmV "relations" hV
  exact ⟨_, by rw [hDL, bindOk, hDV, bindOk]; rfl⟩

theorem compareKind_ok (L1 L2 : List (Json × Json)) (k : Json)
    (h1 : ∀ p ∈ L1, wellShapedResource p.2)
    (h2 : ∀ p ∈ L2, wellShapedResource p.2) :
    ∃ b, compareKind L1 L2 k = .ok b := by
  unfold compareKind
  dsimp only
  by_cases hlv : ((lookupK L1 k).getD .null).truthy
  · rw [if_neg (by simp [hlv])]
    by_cases hlc : ((lookupK L2 k).getD .null).truthy
    · rw [if_neg (by simp [hlc])]
      cases hV : lookupK L1 k with
      | none => rw [hV] at hlv; cases hlv
      | some rV =>
          cases hL : lookupK L2 k with
          | none => rw [hL] at hlc; cases hlc
          | some rL =>
              have hwV : wellShapedResource rV :=
                h1 (k, rV) (lookupK_mem L1 k rV hV)
              have hwL : wellShapedResource rL :=
                h2 (k, rL) (lookupK_mem L2 k rL hL)
              obtain ⟨dmV, hgV, hpV, hrV⟩ := get_mappings_ok rV hwV
              obtain ⟨dmL, hgL, hpL, hrL⟩ := get_mappings_ok rL hwL
              obtain ⟨f, hf⟩ := compareFields_ok k dmL dmV
              obtain ⟨p, hp⟩ := compareProps_ok k dmL dmV hpL hpV
              obtain ⟨r, hrr⟩ := compareRels_ok k dmL dmV hrL hrV
              refine ⟨f ++ p ++ r, ?_⟩
              rw [Option.getD_some, Option.getD_some, hgL, bindOk, hgV,
                bindOk, hf, bindOk, hp, bindOk, hrr, bindOk]
              rfl
    · rw [if_pos (by simp [hlc])]
      exact ⟨_, rfl⟩
  · rw [if_pos (by simp [hlv])]
    exact ⟨_, rfl⟩

theorem compareKinds_ok (L1 L2 : List (Json × Json))
    (h1 : ∀ p ∈ L1, wellShapedResource p.2)
    (h2 : ∀ p ∈ L2, wellShapedResource p.2) :
    ∀ ks, ∃ l, compareKinds L1 L2 ks = .ok l := by
  intro ks
  induction ks with
  | nil => exact ⟨[], rfl⟩
  | cons k ks ih =>
      obtain ⟨b, hb⟩ := compareKind_ok L1 L2 k h1 h2
      obtain ⟨rest, hrest⟩ := ih
      exact ⟨b ++ rest, by rw [compareKinds, hb, bindOk, hrest, bindOk]; rfl⟩

/-- C8 counterexample: a pair of input documents on which the diff raises
instead of returning a list — the live config's `resources` section is
present and truthy but of the wrong shape (a string), and iterating it
reaches a character on which `.get("kind")` raises. -/
theorem c8_counterexample :
    _compare_configs (.obj [("resources", .str "abc")]) (.obj [])
      = .error "AttributeError: get" := rfl

/-- C8 (amended): the diff treats absent or falsy sections as empty
collections and succeeds on every pair of well-shaped documents; but a
present, truthy section of the wrong shape raises an error rather than
being treated as empty. -/
theorem c8_diff_total_on_well_shaped (live localC : Json)
    (h1 : wellShapedCfg live = true) (h2 : wellShapedCfg localC = true) :
    ∃ l, _compare_configs live localC = .ok l := by
  obtain ⟨ra, hra, hwa⟩ := getResources_ok live h1
  obtain ⟨rb, hrb, hwb⟩ := getResources_ok localC h2
  obtain ⟨IA, hIA, hIA'⟩ := indexByKindAux_ok ra [] hwa
    (by intro p hp; cases hp)
  obtain ⟨IB, hIB, hIB'⟩ := indexByKindAux_ok rb [] hwb
    (by intro p hp; cases hp)
  have hkeys : ∀ j ∈ dedup (IA.map (·.1) ++ IB.map (·.1)), j.isStr = true := by
    intro j hj
    rcases List.mem_append.mp ((mem_dedup _ _).mp hj) with h | h
    · obtain ⟨p, hp, he⟩ := List.mem_map.mp h
      rw [← he]
      exact (hIA' p hp).1
    · obtain ⟨p, hp, he⟩ := List.mem_map.mp h
      rw [← he]
      exact (hIB' p hp).1
  obtain ⟨ks, hks⟩ := sortKeysPy_ok _ hkeys
  obtain ⟨l, hl⟩ := compareKinds_ok IA IB (fun p hp => (hIA' p hp).2)
    (fun p hp => (hIB' p hp).2) ks
  refine ⟨l, ?_⟩
  unfold _compare_configs
  rw [hra, bindOk, hrb, bindOk,
    show indexByKind ra = .ok IA from hIA, bindOk,
    show indexByKind rb = .ok IB from hIB, bindOk, hks, bindOk, hl]

/-- C8 witness: absent and falsy sections are accepted and treated as
empty. -/
theorem c8_diff_total_on_well_shaped_witness :
    ∃ l, _compare_configs (.obj [])
      (.obj [("resources", .arr [.obj [("kind", .str "a"),
        ("port", .obj [("entity", .obj [("mappings", .obj
          [("identifier", .str "i"), ("properties", .null)])])])]])])
      = .ok l :=
  c8_diff_total_on_well_shaped (.obj [])
    (.obj [("resources", .arr [.obj [("kind", .str "a"),
      ("port", .obj [("entity", .obj [("mappings", .obj
        [("identifier", .str "i"), ("properties", .null)])])])]])])
    rfl rfl

/-! ### Claim C6: live/local duality of the diff -/

theorem compareFields_dual (k : Json) (dA dB : List (String × Json))
    (f₁ : List DiffEntry)
    (h : _compare_mapping_fields k (.obj dB) (.obj dA) = .ok f₁) :
    _compare_mapping_fields k (.obj dA) (.obj dB)
      = .ok (f₁.map DiffEntry.dual) := by
  unfold _compare_mapping_fields at h ⊢
  dsimp only at h ⊢
  simp only [pyGetNull_obj, bindOk] at h ⊢
  by_cases he1 : getDfltL dA "identifier" .null = getDfltL dB "identifier" .null
  · rw [if_neg (by simp [he1])] at h ⊢
    rw [pureBind] at h ⊢
    by_cases he2 : getDfltL dA "title" .null = getDfltL dB "title" .null
    · rw [if_neg (by simp [he2])] at h ⊢
      rw [pureBind] at h ⊢
      by_cases he3 : getDfltL dA "blueprint" .null = getDfltL dB "blueprint" .null
      · rw [if_neg (by simp [he3])] at h ⊢
        rw [pureBind] at h ⊢
        cases h
        rfl
      · rw [if_pos (by simp [he3, Ne.symm])] at h
        rw [if_pos (by simp [he3])]
        rw [pureBind] at h ⊢
        cases h
        rfl
    · rw [if_pos (by simp [he2, Ne.symm])] at h
      rw [if_pos (by simp [he2])]
      rw [pureBind] at h ⊢
      by_cases he3 : getDfltL dA "blueprint" .null = getDfltL dB "blueprint" .null
      · rw [if_neg (by simp [he3])] at h ⊢
        rw [pureBind] at h ⊢
        cases h
        rfl
      · rw [if_pos (by simp [he3, Ne.symm])] at h
        rw [if_pos (by simp [he3])]
        rw [pureBind] at h ⊢
        cases h
        rfl
  · rw [if_pos (by simp [he1, Ne.symm])] at h
    rw [if_pos (by simp [he1])]
    rw [pureBind] at h ⊢
    by_cases he2 : getDfltL dA "title" .null = getDfltL dB "title" .null
    · rw [if_neg (by simp [he2])] at h ⊢
      rw [pureBind] at h ⊢
      by_cases he3 : getDfltL dA "blueprint" .null = getDfltL dB "blueprint" .null
      · rw [if_neg (by simp [he3])] at h ⊢
        rw [pureBind] at h ⊢
        cases h
        rfl
      · rw [if_pos (by simp [he3, Ne.symm])] at h
        rw [if_pos (by simp [he3])]
        rw [pureBind] at h ⊢
        cases h
        rfl
    · rw [if_pos (by simp [he2, Ne.symm])] at h
      rw [if_pos (by simp [he2])]
      rw [pureBind] at h ⊢
      by_cases he3 : getDfltL dA "blueprint" .null = getDfltL dB "blueprint" .null
      · rw [if_neg (by simp [he3])] at h ⊢
        rw [pureBind] at h ⊢
        cases h
        rfl
      · rw [if_pos (by simp [he3, Ne.symm])] at h
        rw [if_pos (by simp [he3])]
        rw [pureBind] at h ⊢
        cases h
        rfl

theorem keysOf_nodup (D : List (String × Json)) : (keysOf D).Nodup :=
  nodup_dedup _

theorem interKeys_perm (DA DB : List (String × Json)) :
    ((keysOf DB).filter (fun key => (keysOf DA).contains key)).Perm
      ((keysOf DA).filter (fun key => (keysOf DB).contains key)) := by
  rw [List.perm_ext_iff_of_nodup ((keysOf_nodup DB).filter _)
    ((keysOf_nodup DA).filter _)]
  intro a
  simp only [List.mem_filter, List.elem_eq_mem, decide_eq_true_eq]
  exact and_comm

theorem comparePairs_dual (k : Json) (DA DB : List (String × Json))
    (mm me : Json → String → DiffEntry)
    (md : Json → String → Json → Json → DiffEntry)
    (hm : ∀ key, DiffEntry.dual (mm k key) = me k key)
    (hme : ∀ key, DiffEntry.dual (me k key) = mm k key)
    (hd : ∀ key a b, DiffEntry.dual (md k key a b) = md k key b a) :
    (comparePairs k DB DA mm me md).Perm
      ((comparePairs k DA DB mm me md).map DiffEntry.dual) := by
  unfold comparePairs
  dsimp only
  rw [List.map_append, List.map_append, List.map_map, List.map_map]
  have hM : List.map (DiffEntry.dual ∘ mm k)
      ((keysOf DA).filter (fun key => !(keysOf DB).contains key))
      = List.map (me k)
        ((keysOf DA).filter (fun key => !(keysOf DB).contains key)) :=
    List.map_congr_left (fun a _ => by rw [Function.comp_apply]; exact hm a)
  have hE : List.map (DiffEntry.dual ∘ me k)
      ((keysOf DB).filter (fun key => !(keysOf DA).contains key))
      = List.map (mm k)
        ((keysOf DB).filter (fun key => !(keysOf DA).contains key)) :=
    List.map_congr_left (fun a _ => by rw [Function.comp_apply]; exact hme a)
  rw [hM, hE, List.map_filterMap]
  have hfun : (fun key =>
      Option.map DiffEntry.dual
        (match lookupL DA key, lookupL DB key with
         | some lv, some vv => if lv ≠ vv then some (md k key vv lv) else none
         | _, _ => none))
      = (fun key =>
          match lookupL DB key, lookupL DA key with
          | some lv, some vv => if lv ≠ vv then some (md k key vv lv) else none
          | _, _ => none) := by
    funext key
    cases hA : lookupL DA key with
    | none =>
        cases hB : lookupL DB key with
        | none => rfl
        | some b => rfl
    | some a =>
        cases hB : lookupL DB key with
        | none => rfl
        | some b =>
            dsimp only
            by_cases hab : a = b
            · rw [if_neg (by simp [hab]), if_neg (by simp [hab])]
              rfl
            · rw [if_pos (by simp [hab]), if_pos (by simp [Ne.symm hab])]
              rw [Option.map_some', hd]
  rw [hfun]
  exact List.Perm.append List.perm_append_comm
    ((interKeys_perm DA DB).filterMap _)

theorem dual_dual (e : DiffEntry) : e.dual.dual = e := by
  cases e <;> rfl

theorem pyGetNull_ok_shape (x : Json) (f : String) (v : Json)
    (h : pyGetNull x f = .ok v) : ∃ d, x = .obj d := by
  cases x with
  | obj d => exact ⟨d, rfl⟩
  | null => cases h
  | bool b => cases h
  | num n => cases h
  | str s => cases h
  | arr l => cases h

theorem compareFields_ok_shape (k lm vm : Json) (f : List DiffEntry)
    (h : _compare_mapping_fields k lm vm = .ok f) :
    (∃ dL, lm = .obj dL) ∧ (∃ dV, vm = .obj dV) := by
  unfold _compare_mapping_fields at h
  dsimp only at h
  obtain ⟨a, ha, h⟩ := exceptBind_ok _ _ _ h
  obtain ⟨lv, hlv, ha⟩ := exceptBind_ok _ _ _ ha
  obtain ⟨vv, hvv, _⟩ := exceptBind_ok _ _ _ ha
  exact ⟨pyGetNull_ok_shape _ _ _ hlv, pyGetNull_ok_shape _ _ _ hvv⟩

theorem compareFields_dual_any (k lm vm : Json) (f₁ : List DiffEntry)
    (h : _compare_mapping_fields k lm vm = .ok f₁) :
    _compare_mapping_fields k vm lm = .ok (f₁.map DiffEntry.dual) := by
  obtain ⟨⟨dL, rfl⟩, ⟨dV, rfl⟩⟩ := compareFields_ok_shape k lm vm f₁ h
  exact compareFields_dual k dV dL f₁ h

theorem compareProps_dual (k lm vm : Json) (p₁ : List DiffEntry)
    (h : _compare_properties k lm vm = .ok p₁) :
    ∃ p₂, _compare_properties k vm lm = .ok p₂ ∧
      p₁.Perm (p₂.map DiffEntry.dual) := by
  unfold _compare_properties at h ⊢
  obtain ⟨Dl, hDl, h⟩ := exceptBind_ok _ _ _ h
  obtain ⟨Dv, hDv, h⟩ := exceptBind_ok _ _ _ h
  have hp : p₁ = comparePairs k Dl Dv .propMissingInLive .propExtraInLive
      .propDiff := by
    cases h
    rfl
  refine ⟨comparePairs k Dv Dl .propMissingInLive .propExtraInLive
    .propDiff, ?_, ?_⟩
  · rw [hDv, bindOk, hDl, bindOk]
    rfl
  · rw [hp]
    exact comparePairs_dual k Dv Dl _ _ _ (fun key => rfl) (fun key => rfl)
      (fun key a b => rfl)

theorem compareRels_dual (k lm vm : Json) (r₁ : List DiffEntry)
    (h : _compare_relations k lm vm = .ok r₁) :
    ∃ r₂, _compare_relations k vm lm = .ok r₂ ∧
      r₁.Perm (r₂.map DiffEntry.dual) := by
  unfold _compare_relations at h ⊢
  obtain ⟨Dl, hDl, h⟩ := exceptBind_ok _ _ _ h
  obtain ⟨Dv, hDv, h⟩ := exceptBind_ok _ _ _ h
  have hp : r₁ = comparePairs k Dl Dv .relMissingInLive .relExtraInLive
      .relDiff := by
    cases h
    rfl
  refine ⟨comparePairs k Dv Dl .relMissingInLive .relExtraInLive
    .relDiff, ?_, ?_⟩
  · rw [hDv, bindOk, hDl, bindOk]
    rfl
  · rw [hp]
    exact comparePairs_dual k Dv Dl _ _ _ (fun key => rfl) (fun key => rfl)
      (fun key a b => rfl)

theorem lookupK_getD_truthy (I : List (Json × Json)) (k : Json)
    (hI : ∀ p ∈ I, p.2.truthy = true) :
    ((lookupK I k).getD .null).truthy = (lookupK I k).isSome := by
  cases hl : lookupK I k with
  | none => rfl
  | some v =>
      simp only [Option.getD_some, Option.isSome_some]
      exact hI (k, v) (lookupK_mem I k v hl)

theorem compareKind_dual (liveI localI : List (Json × Json)) (k : Json)
    (hLive : ∀ p ∈ liveI, p.2.truthy = true)
    (hLocal : ∀ p ∈ localI, p.2.truthy = true)
    (hk : (lookupK liveI k).isSome = true ∨ (lookupK localI k).isSome = true)
    (l₁ : List DiffEntry)
    (h : compareKind liveI localI k = .ok l₁) :
    ∃ l₂, compareKind localI liveI k = .ok l₂ ∧
      l₁.Perm (l₂.map DiffEntry.dual) := by
  unfold compareKind at h ⊢
  dsimp only at h ⊢
  by_cases hv : ((lookupK liveI k).getD .null).truthy
  · rw [if_neg (by simp [hv])] at h
    by_cases hl : ((lookupK localI k).getD .null).truthy
    · rw [if_neg (by simp [hl])] at h
      rw [if_neg (by simp [hl]), if_neg (by simp [hv])]
      obtain ⟨lm, hlm, h⟩ := exceptBind_ok _ _ _ h
      obtain ⟨vm, hvm, h⟩ := exceptBind_ok _ _ _ h
      obtain ⟨f, hf, h⟩ := exceptBind_ok _ _ _ h
      obtain ⟨p, hp, h⟩ := exceptBind_ok _ _ _ h
      obtain ⟨r, hr, h⟩ := exceptBind_ok _ _ _ h
      have hl1 : l₁ = f ++ p ++ r := by
        cases h
        rfl
      obtain ⟨p₂, hp₂, hpp⟩ := compareProps_dual k lm vm p hp
      obtain ⟨r₂, hr₂, hrr⟩ := compareRels_dual k lm vm r hr
      have hf₂ := compareFields_dual_any k lm vm f hf
      refine ⟨f.map DiffEntry.dual ++ p₂ ++ r₂, ?_, ?_⟩
      · rw [hvm, bindOk, hlm, bindOk, hf₂, bindOk, hp₂, bindOk, hr₂, bindOk]
        rfl
      · have hff : List.map DiffEntry.dual (List.map DiffEntry.dual f)
            = f := by
          rw [List.map_map]
          have hcomp : DiffEntry.dual ∘ DiffEntry.dual = id := funext dual_dual
          rw [hcomp, List.map_id]
        rw [hl1, List.map_append, List.map_append, hff]
        exact List.Perm.append (List.Perm.append (List.Perm.refl f) hpp) hrr
    · rw [if_pos (by simp at hl; simp [hl])] at h
      cases h
      rw [if_pos (by simp at hl; simp [hl])]
      exact ⟨[.missingInLive k], rfl, List.Perm.refl _⟩
  · rw [if_pos (by simp at hv; simp [hv])] at h
    cases h
    by_cases hl : ((lookupK localI k).getD .null).truthy
    · rw [if_neg (by simp [hl]), if_pos (by simp at hv; simp [hv])]
      exact ⟨[.extraInLive k], rfl, List.Perm.refl _⟩
    · exfalso
      have h1 : (lookupK liveI k).isSome = false := by
        rw [← lookupK_getD_truthy liveI k hLive]
        simpa using hv
      have h2 : (lookupK localI k).isSome = false := by
        rw [← lookupK_getD_truthy localI k hLocal]
        simpa using hl
      rcases hk with hk | hk
      · rw [hk] at h1
        cases h1
      · rw [hk] at h2
        cases h2

theorem compareKinds_ok_each (liveI localI : List (Json × Json)) :
    ∀ (ks : List Json) (l : List DiffEntry),
      compareKinds liveI localI ks = .ok l →
      ∀ k ∈ ks, ∃ b, compareKind liveI localI k = .ok b := by
  intro ks
  induction ks with
  | nil =>
      intro l h k hk
      cases hk
  | cons x xs ih =>
      intro l h k hk
      rw [compareKinds] at h
      obtain ⟨b, hb, h⟩ := exceptBind_ok _ _ _ h
      obtain ⟨rest, hrest, _⟩ := exceptBind_ok _ _ _ h
      rcases List.mem_cons.mp hk with rfl | hk
      · exact ⟨b, hb⟩
      · exact ih rest hrest k hk

/-- The block a single kind contributes to the diff (empty on error). -/
def blockOf (liveI localI : List (Json × Json)) (k : Json) :
    List DiffEntry :=
  match compareKind liveI localI k with
  | .ok b => b
  | .error _ => []

theorem compareKinds_eq_flatten (liveI localI : List (Json × Json)) :
    ∀ ks : List Json,
      (∀ k ∈ ks, ∃ b, compareKind liveI localI k = .ok b) →
      compareKinds liveI localI ks
        = .ok ((ks.map (blockOf liveI localI)).flatten) := by
  intro ks
  induction ks with
  | nil => intro _; rfl
  | cons x xs ih =>
      intro hok
      obtain ⟨b, hb⟩ := hok x (List.mem_cons_self x xs)
      have hbx : blockOf liveI localI x = b := by
        unfold blockOf
        rw [hb]
      rw [compareKinds, hb, bindOk,
        ih (fun k hk => hok k (List.mem_cons_of_mem x hk)), bindOk,
        List.map_cons, List.flatten_cons, hbx]
      rfl

theorem flatten_map_perm {α β : Type} (F G : α → List β) :
    ∀ ks : List α, (∀ k ∈ ks, (F k).Perm (G k)) →
      ((ks.map F).flatten).Perm ((ks.map G).flatten) := by
  intro ks
  induction ks with
  | nil => intro _; exact List.Perm.refl _
  | cons x xs ih =>
      intro h
      rw [List.map_cons, List.map_cons, List.flatten_cons, List.flatten_cons]
      exact List.Perm.append (h x (List.mem_cons_self x xs))
        (ih (fun k hk => h k (List.mem_cons_of_mem x hk)))

theorem compareKinds_dual (liveI localI : List (Json × Json))
    (hLive : ∀ p ∈ liveI, p.2.truthy = true)
    (hLocal : ∀ p ∈ localI, p.2.truthy = true)
    (ks₁ ks₂ : List Json) (hperm : ks₁.Perm ks₂)
    (hks : ∀ k ∈ ks₁,
      (lookupK liveI k).isSome = true ∨ (lookupK localI k).isSome = true)
    (l₁ l₂ : List DiffEntry)
    (h₁ : compareKinds liveI localI ks₁ = .ok l₁)
    (h₂ : compareKinds localI liveI ks₂ = .ok l₂) :
    l₁.Perm (l₂.map DiffEntry.dual) := by
  have hok₁ := compareKinds_ok_each liveI localI ks₁ l₁ h₁
  have hok₂ := compareKinds_ok_each localI liveI ks₂ l₂ h₂
  have hl₁ : l₁ = ((ks₁.map (blockOf liveI localI)).flatten) := by
    rw [compareKinds_eq_flatten liveI localI ks₁ hok₁] at h₁
    cases h₁
    rfl
  have hl₂ : l₂ = ((ks₂.map (blockOf localI liveI)).flatten) := by
    rw [compareKinds_eq_flatten localI liveI ks₂ hok₂] at h₂
    cases h₂
    rfl
  have hpoint : ∀ k ∈ ks₁,
      (blockOf liveI localI k).Perm
        ((blockOf localI liveI k).map DiffEntry.dual) := by
    intro k hk
    obtain ⟨b, hb⟩ := hok₁ k hk
    obtain ⟨b₂, hb₂, hbp⟩ :=
      compareKind_dual liveI localI k hLive hLocal (hks k hk) b hb
    have h1 : blockOf liveI localI k = b := by
      unfold blockOf
      rw [hb]
    have h2 : blockOf localI liveI k = b₂ := by
      unfold blockOf
      rw [hb₂]
    rw [h1, h2]
    exact hbp
  rw [hl₁, hl₂, List.map_flatten, List.map_map]
  exact (flatten_map_perm (blockOf liveI localI)
      (List.map DiffEntry.dual ∘ blockOf localI liveI) ks₁ hpoint).trans
    (List.Perm.flatten
      (hperm.map (List.map DiffEntry.dual ∘ blockOf localI liveI)))

/-- C6: for every pair of configuration documents A and B on which the
diff succeeds in both directions, `_compare_configs A B` and
`_compare_configs B A` are dual as multisets of entries: each list is a
permutation of the other's image under `DiffEntry.dual`, which swaps
missing-in-live with extra-in-live (at the kind, property and relation
level) and swaps the live/local payloads of field, property and relation
value diffs while keeping kind and key unchanged. -/
theorem c6_diff_dual (A B : Json) (l₁ l₂ : List DiffEntry)
    (h₁ : _compare_configs A B = .ok l₁)
    (h₂ : _compare_configs B A = .ok l₂) :
    l₁.Perm (l₂.map DiffEntry.dual) := by
  unfold _compare_configs at h₁ h₂
  obtain ⟨ra, hra, h₁⟩ := exceptBind_ok _ _ _ h₁
  obtain ⟨rb, hrb, h₁⟩ := exceptBind_ok _ _ _ h₁
  obtain ⟨IA, hIA, h₁⟩ := exceptBind_ok _ _ _ h₁
  obtain ⟨IB, hIB, h₁⟩ := exceptBind_ok _ _ _ h₁
  obtain ⟨ks₁, hks₁, h₁⟩ := exceptBind_ok _ _ _ h₁
  obtain ⟨rb', hrb', h₂⟩ := exceptBind_ok _ _ _ h₂
  rw [hrb] at hrb'
  cases hrb'
  obtain ⟨ra', hra', h₂⟩ := exceptBind_ok _ _ _ h₂
  rw [hra] at hra'
  cases hra'
  obtain ⟨IB', hIB', h₂⟩ := exceptBind_ok _ _ _ h₂
  rw [hIB] at hIB'
  cases hIB'
  obtain ⟨IA', hIA', h₂⟩ := exceptBind_ok _ _ _ h₂
  rw [hIA] at hIA'
  cases hIA'
  obtain ⟨ks₂, hks₂, h₂⟩ := exceptBind_ok _ _ _ h₂
  have hTA : ∀ p ∈ IA, p.2.truthy = true :=
    indexByKindAux_truthy ra [] IA
      (fun q hq => absurd hq (List.not_mem_nil q)) hIA
  have hTB : ∀ p ∈ IB, p.2.truthy = true :=
    indexByKindAux_truthy rb [] IB
      (fun q hq => absurd hq (List.not_mem_nil q)) hIB
  have hperm : ks₁.Perm ks₂ := by
    refine (sortKeysPy_perm _ ks₁ hks₁).trans
      (List.Perm.trans ?_ (sortKeysPy_perm _ ks₂ hks₂).symm)
    rw [List.perm_ext_iff_of_nodup (nodup_dedup _) (nodup_dedup _)]
    intro a
    rw [mem_dedup, mem_dedup, List.mem_append, List.mem_append]
    exact or_comm
  have hks : ∀ k ∈ ks₁,
      (lookupK IA k).isSome = true ∨ (lookupK IB k).isSome = true := by
    intro k hk
    have hk' : k ∈ dedup (IA.map (·.1) ++ IB.map (·.1)) :=
      ((sortKeysPy_perm _ ks₁ hks₁).mem_iff).mp hk
    rw [mem_dedup, List.mem_append] at hk'
    rcases hk' with h' | h'
    · exact Or.inl (lookupK_isSome_of_mem_keys IA k h')
    · exact Or.inr (lookupK_isSome_of_mem_keys IB k h')
  exact compareKinds_dual IA IB hTA hTB ks₁ ks₂ hperm hks l₁ l₂ h₁ h₂

/-- C6 witness: a config with one kind against the empty config produces
the dual singleton diffs, and the duality permutation holds on them. -/
theorem c6_diff_dual_witness :
    _compare_configs
        (.obj [("resources", .arr [.obj [("kind", .str "a")]])]) (.obj [])
      = .ok [DiffEntry.extraInLive (.str "a")] ∧
    _compare_configs
        (.obj []) (.obj [("resources", .arr [.obj [("kind", .str "a")]])])
      = .ok [DiffEntry.missingInLive (.str "a")] ∧
    ([DiffEntry.extraInLive (.str "a")]).Perm
      (([DiffEntry.missingInLive (.str "a")]).map DiffEntry.dual) :=
  ⟨by rfl, by rfl,
    c6_diff_dual
      (.obj [("resources", .arr [.obj [("kind", .str "a")]])]) (.obj [])
      [DiffEntry.extraInLive (.str "a")]
      [DiffEntry.missingInLive (.str "a")] (by rfl) (by rfl)⟩
